import Mathlib

/-!
Verification development for the MA_BUYBACK_BOT repository.

The backend is shallowly embedded: JavaScript floating-point amounts are
modelled as rationals (ℚ), counters and millisecond timestamps as naturals,
relational tables as lists of row structures, and every fallible or
stateful routine as an explicit state-passing Lean function.  External
collaborators (chain RPC, DEX aggregator) are modelled as oracle
parameters supplying the outcome the collaborator would produce.

Sources embedded here:
  - src/backend/src/db/queries.ts       (ledger / table operations)
  - src/backend/src/services/twap.ts    (both scheduler variants and the
                                         deposit monitor bundled in it)
  - src/unnamed/part_008                (the POST /withdraw route)
-/

namespace Buyback

/-- Status of a trade record, from the `status` CHECK constraint of the
`trades` table and the `TradeExecution` TS type. -/
inductive TradeStatus where
  | pending
  | success
  | failed
deriving DecidableEq, Repr

/-- Status of a TWAP session row, from the `status` CHECK constraint of the
`twap_sessions` table. -/
inductive SessionStatus where
  | active
  | completed
  | stopped
  | failed
deriving DecidableEq, Repr

/-- A terminal session status, per the spec state machine
`none → active → (completed or stopped or failed)`. -/
def SessionStatus.isTerminal : SessionStatus → Bool
  | .active => false
  | _ => true

/-- The TWAPConfig TS type (src/backend/src/types).  Amounts are rationals;
the slice count, interval and slippage are naturals. -/
structure TWAPConfig where
  totalAmount : ℚ
  numTrades : ℕ
  intervalMs : ℕ
  slippageBps : ℕ
  tokenIn : String
  tokenOut : String
deriving DecidableEq, Repr

/-- The TradeExecution TS type: one slice's in-memory trade record. -/
structure TradeExecution where
  id : String
  timestamp : ℕ
  amountIn : ℚ
  amountOut : ℚ
  txHash : String
  status : TradeStatus
  error : Option String
deriving DecidableEq, Repr

/-! ## Ledger (src/backend/src/db/queries.ts, wallet-balance section) -/

/-- One row of the `wallet_balances` table (unique on wallet and token). -/
structure BalRow where
  wallet : String
  token : String
  deposited : ℚ
  withdrawn : ℚ
  traded : ℚ
deriving DecidableEq, Repr

/-- The `WHERE wallet_address = $1 AND token = $2` row predicate. -/
def balKeyMatches (w tok : String) (r : BalRow) : Bool :=
  r.wallet == w && r.token == tok

/-- `SELECT * FROM wallet_balances WHERE wallet_address = $1 AND token = $2`
(the unique constraint makes at most one row match). -/
def findBal (t : List BalRow) (w tok : String) : Option BalRow :=
  t.find? (balKeyMatches w tok)

/-- The `INSERT .. ON CONFLICT (wallet_address, token) DO UPDATE SET
deposited = wallet_balances.deposited + $3` upsert used by `recordDeposit`
and the tokenOut side of `recordTrade`. -/
def upsertDeposited (t : List BalRow) (w tok : String) (amt : ℚ) : List BalRow :=
  match findBal t w tok with
  | some _ =>
    t.map (fun r => if balKeyMatches w tok r then { r with deposited := r.deposited + amt } else r)
  | none => t ++ [⟨w, tok, amt, 0, 0⟩]

/-- The plain `UPDATE wallet_balances SET withdrawn = withdrawn + $3 WHERE ..`
of `recordWithdrawal`: no row inserted when none matches. -/
def updWithdrawn (t : List BalRow) (w tok : String) (amt : ℚ) : List BalRow :=
  t.map (fun r => if balKeyMatches w tok r then { r with withdrawn := r.withdrawn + amt } else r)

/-- The plain `UPDATE wallet_balances SET traded = traded + $3 WHERE ..`
of `recordTrade`'s tokenIn side: no row inserted when none matches. -/
def updTraded (t : List BalRow) (w tok : String) (amt : ℚ) : List BalRow :=
  t.map (fun r => if balKeyMatches w tok r then { r with traded := r.traded + amt } else r)

/-- One row of the `deposit_transactions` table (`tx_hash` is nullable and
carries no unique constraint in migrations.ts). -/
structure DepositTx where
  wallet : String
  token : String
  amount : ℚ
  txHash : Option String
  confirmed : Bool
deriving DecidableEq, Repr

/-- One row of the `withdrawal_transactions` table. -/
structure WithdrawalTx where
  wallet : String
  token : String
  amount : ℚ
  txHash : String
  status : TradeStatus
deriving DecidableEq, Repr

/-- The persisted ledger state: the three balance-accounting tables. -/
structure Ledger where
  balances : List BalRow
  deposits : List DepositTx
  withdrawals : List WithdrawalTx
deriving DecidableEq, Repr

def Ledger.empty : Ledger := ⟨[], [], []⟩

/-- Result shape of `getWalletBalance` (WalletBalanceSummary in queries.ts). -/
structure WalletBalanceSummary where
  deposited : ℚ
  withdrawn : ℚ
  traded : ℚ
  available : ℚ
deriving DecidableEq, Repr

/-- `getWalletBalance` (queries.ts lines 224-241): zeros when no row exists,
otherwise the row's components with `available = max 0 (d - w - t)`. -/
def getWalletBalance (L : Ledger) (w tok : String) : WalletBalanceSummary :=
  match findBal L.balances w tok with
  | none => ⟨0, 0, 0, 0⟩
  | some r => ⟨r.deposited, r.withdrawn, r.traded,
               max 0 (r.deposited - r.withdrawn - r.traded)⟩

/-- `recordDeposit` (queries.ts lines 269-291): upsert the balance row's
`deposited`, then append a confirmed `deposit_transactions` row.  Note: no
transaction-hash deduplication happens here. -/
def recordDeposit (L : Ledger) (w tok : String) (amt : ℚ) (txHash : Option String) : Ledger :=
  { L with balances := upsertDeposited L.balances w tok amt,
           deposits := L.deposits ++ [⟨w, tok, amt, txHash, true⟩] }

/-- `getDepositByTxHash` (queries.ts lines 361-383). -/
def getDepositByTxHash (L : Ledger) (h : String) : Option DepositTx :=
  L.deposits.find? (fun d => d.txHash == some h)

/-- `recordWithdrawal` (queries.ts lines 296-319): increment `withdrawn`
only when status is success; always append a `withdrawal_transactions` row. -/
def recordWithdrawal (L : Ledger) (w tok : String) (amt : ℚ) (txHash : String)
    (status : TradeStatus) : Ledger :=
  { L with balances := if status == .success then updWithdrawn L.balances w tok amt
                       else L.balances,
           withdrawals := L.withdrawals ++ [⟨w, tok, amt, txHash, status⟩] }

/-- `recordTrade` (queries.ts lines 324-348): plain update of `traded` on the
tokenIn row, then deposit-upsert of `amountOut` on the tokenOut row. -/
def recordTrade (L : Ledger) (w tokIn : String) (amtIn : ℚ) (tokOut : String)
    (amtOut : ℚ) : Ledger :=
  { L with balances := upsertDeposited (updTraded L.balances w tokIn amtIn) w tokOut amtOut }

/-- `canWithdraw` (queries.ts lines 353-356). -/
def canWithdraw (L : Ledger) (w tok : String) (amt : ℚ) : Bool :=
  amt ≤ (getWalletBalance L w tok).available

/-- The duplicate-guarded deposit-recording step of `checkForNewDeposits`
(services/twap.ts deposit-monitor section, lines 858-874): re-check the
persisted `deposit_transactions` table for the transaction hash and call
`recordDeposit` only when it is absent. -/
def scanDepositTx (L : Ledger) (w tok : String) (amt : ℚ) (h : String) : Ledger :=
  match getDepositByTxHash L h with
  | some _ => L
  | none => recordDeposit L w tok amt (some h)

example :
    (getWalletBalance (recordDeposit Ledger.empty "w" "USDC" 50 (some "0xabc")) "w" "USDC").deposited
      = 50 := by with_unfolding_all rfl

example :
    (getWalletBalance (recordDeposit (recordDeposit Ledger.empty "w" "USDC" 50 (some "0xabc"))
      "w" "USDC" 50 (some "0xabc")) "w" "USDC").deposited = 100 := by with_unfolding_all rfl

example :
    (getWalletBalance (scanDepositTx (scanDepositTx Ledger.empty "w" "USDC" 50 "0xabc")
      "w" "USDC" 50 "0xabc") "w" "USDC").deposited = 50 := by with_unfolding_all rfl

/-! ## Persisted scheduler tables (queries.ts, session and trade sections) -/

/-- One row of the `twap_sessions` table. -/
structure SessionRow where
  id : ℕ
  config : TWAPConfig
  startedAt : ℕ
  stoppedAt : Option ℕ
  tradesCompleted : ℕ
  totalTrades : ℕ
  status : SessionStatus
  wallet : Option String
deriving DecidableEq, Repr

/-- One row of the `trades` table. -/
structure TradeRow where
  id : String
  timestamp : ℕ
  amountIn : ℚ
  amountOut : ℚ
  txHash : Option String
  status : TradeStatus
  error : Option String
  sessionId : Option ℕ
  wallet : Option String
deriving DecidableEq, Repr

/-- The relational store: sessions (with the SERIAL id counter), trades and
the ledger tables. -/
structure Database where
  sessions : List SessionRow
  nextSessionId : ℕ
  trades : List TradeRow
  ledger : Ledger
deriving DecidableEq, Repr

def Database.empty : Database := ⟨[], 0, [], Ledger.empty⟩

/-- `insertTrade` (queries.ts lines 18-39): insert keyed by id with
`ON CONFLICT (id) DO UPDATE` of amountOut, txHash, status and error.
The JS null-coercion `trade.txHash || null` maps the empty string to NULL. -/
def insertTrade (trades : List TradeRow) (t : TradeExecution) (sessionId : Option ℕ)
    (wallet : Option String) : List TradeRow :=
  let txh : Option String := if t.txHash == "" then none else some t.txHash
  match trades.find? (fun r => r.id == t.id) with
  | some _ =>
    trades.map (fun r =>
      if r.id == t.id then
        { r with amountOut := t.amountOut, txHash := txh, status := t.status, error := t.error }
      else r)
  | none =>
    trades ++ [⟨t.id, t.timestamp, t.amountIn, t.amountOut, txh, t.status, t.error, sessionId, wallet⟩]

/-- `updateTradeStatus` (queries.ts lines 41-53): `txHash` and `amountOut`
are COALESCEd with the old value (with JS `x || null` coercion dropping 0
and the empty string), while `error` is overwritten outright. -/
def updateTradeStatus (trades : List TradeRow) (tradeId : String) (status : TradeStatus)
    (txHash : Option String) (amountOut : Option ℚ) (error : Option String) : List TradeRow :=
  let txh := txHash.bind (fun h => if h == "" then none else some h)
  let aOut := amountOut.bind (fun a => if a == 0 then none else some a)
  trades.map (fun r =>
    if r.id == tradeId then
      { r with status := status,
               txHash := match txh with | some h => some h | none => r.txHash,
               amountOut := match aOut with | some a => a | none => r.amountOut,
               error := error }
    else r)

/-- The optional-field update record accepted by `updateTWAPSession`
(queries.ts lines 129-163). -/
structure SessionUpdate where
  tradesCompleted : Option ℕ
  status : Option SessionStatus
  stoppedAt : Option ℕ
deriving DecidableEq, Repr

/-- Apply a `SessionUpdate` to one row: only the supplied SET clauses change. -/
def applySessionUpdate (u : SessionUpdate) (r : SessionRow) : SessionRow :=
  { r with tradesCompleted := u.tradesCompleted.getD r.tradesCompleted,
           status := u.status.getD r.status,
           stoppedAt := match u.stoppedAt with | some t => some t | none => r.stoppedAt }

/-- `updateTWAPSession` (queries.ts lines 129-163): UPDATE by session id. -/
def updateTWAPSession (sessions : List SessionRow) (sid : ℕ) (u : SessionUpdate) :
    List SessionRow :=
  sessions.map (fun r => if r.id == sid then applySessionUpdate u r else r)

/-- The row with the greatest id, i.e. `ORDER BY id DESC LIMIT 1`. -/
def maxIdRow : List SessionRow → Option SessionRow
  | [] => none
  | r :: rs =>
    match maxIdRow rs with
    | none => some r
    | some m => if m.id < r.id then some r else some m

/-- `getActiveSession` with no wallet argument (queries.ts lines 165-179):
the active session with the greatest id, if any. -/
def getActiveSession (sessions : List SessionRow) : Option SessionRow :=
  maxIdRow (sessions.filter (fun r => r.status == .active))

/-! ## TWAP scheduler, DB-backed variant
(services/twap.ts lines 174-630; module-level mutable state plus the
persisted store). -/

/-- The in-process module-level scheduler state of services/twap.ts
(`twapConfig`, `twapInterval`, `tradesCompleted`, `startedAt`,
`nextTradeAt`, `currentSessionId`, `currentWalletAddress`, `tradeHistory`),
threaded together with the persisted database. `twapIntervalArmed` models
`twapInterval !== null`. -/
structure SchedState where
  twapConfig : Option TWAPConfig
  twapIntervalArmed : Bool
  tradesCompleted : ℕ
  startedAt : Option ℕ
  nextTradeAt : Option ℕ
  currentSessionId : Option ℕ
  currentWalletAddress : Option String
  tradeHistory : List TradeExecution
  db : Database
deriving DecidableEq, Repr

/-- Fresh in-process state over a given database, as after process start. -/
def SchedState.init (db : Database) : SchedState :=
  ⟨none, false, 0, none, none, none, none, [], db⟩

/-- The `config.moveToken` constant of src/backend/src/config. -/
def moveTokenType : String := "0x1::aptos_coin::AptosCoin"

/-- The `config.usdcToken` constant of src/backend/src/config. -/
def usdcTokenType : String := "0x1::usdc::USDC"

/-- The `tokenIn === config.moveToken ? 'MOVE' : 'USDC'` name selection used
by startTWAP and executeTrade. -/
def tokenName (tokenType : String) : String :=
  if tokenType == moveTokenType then "MOVE" else "USDC"

/-- The status snapshot `getTWAPStatus` (twap.ts lines 314-324). -/
structure TWAPStatus where
  isActive : Bool
  config : Option TWAPConfig
  tradesCompleted : ℕ
  totalTrades : ℕ
  nextTradeAt : Option ℕ
  startedAt : Option ℕ
  walletAddress : Option String
deriving DecidableEq, Repr

/-- `getTWAPStatus` (twap.ts lines 314-324). -/
def getTWAPStatus (s : SchedState) : TWAPStatus :=
  ⟨s.twapIntervalArmed || (s.twapConfig.isSome && s.tradesCompleted == 0),
   s.twapConfig,
   s.tradesCompleted,
   (s.twapConfig.map TWAPConfig.numTrades).getD 0,
   s.nextTradeAt,
   s.startedAt,
   s.currentWalletAddress⟩

/-- `stopTWAP` (twap.ts lines 272-312): clear the interval, mark the current
session completed (when `tradesCompleted ≥ numTrades`) or stopped, record
`stoppedAt` and the final `tradesCompleted`, then clear the in-process
pointers and return the snapshot. -/
def stopTWAP (s : SchedState) (now : ℕ) : SchedState × TWAPStatus :=
  let s1 := { s with twapIntervalArmed := false }
  let s2 :=
    match s1.currentSessionId with
    | some sid =>
      let newStatus : SessionStatus :=
        if ((s1.twapConfig.map TWAPConfig.numTrades).getD 0) ≤ s1.tradesCompleted then
          .completed
        else .stopped
      { s1 with db := { s1.db with
          sessions := updateTWAPSession s1.db.sessions sid
            ⟨some s1.tradesCompleted, some newStatus, some now⟩ } }
    | none => s1
  let s3 := { s2 with twapConfig := none, nextTradeAt := none,
                      currentSessionId := none, currentWalletAddress := none }
  (s3, getTWAPStatus s3)

/-- The outcome the external collaborators (bot balance fetch, DEX quote,
swap submission) produce for one slice: either everything succeeds with a
realized output amount and transaction hash, or some step throws with an
error message. -/
inductive SliceOutcome where
  | success (amountOut : ℚ) (txHash : String)
  | failure (msg : String)
deriving DecidableEq, Repr

/-- The tail of `executeTrade` (twap.ts lines 488-527): push the finished
record onto the in-memory history, increment `tradesCompleted`, persist it
to the current session, then auto-stop on completion or recompute
`nextTradeAt` when the interval is armed. -/
def bumpSessions (sessions : List SessionRow) (cur : Option ℕ) (n : ℕ) : List SessionRow :=
  match cur with
  | some sid => updateTWAPSession sessions sid ⟨some n, none, none⟩
  | none => sessions

/-- The common prefix of `finishTrade`: push the record onto the in-memory
history, increment `tradesCompleted` and persist it to the current session. -/
def bumpState (s : SchedState) (trade : TradeExecution) : SchedState :=
  { s with tradeHistory := s.tradeHistory ++ [trade],
           tradesCompleted := s.tradesCompleted + 1,
           db := { s.db with
             sessions := bumpSessions s.db.sessions s.currentSessionId (s.tradesCompleted + 1) } }

def finishTrade (s : SchedState) (now : ℕ) (trade : TradeExecution) : SchedState :=
  match s.twapConfig with
  | some cfg =>
    if cfg.numTrades ≤ s.tradesCompleted + 1 then (stopTWAP (bumpState s trade) now).1
    else if s.twapIntervalArmed then
      { bumpState s trade with nextTradeAt := some (now + cfg.intervalMs) }
    else bumpState s trade
  | none =>
    if s.twapIntervalArmed then { bumpState s trade with nextTradeAt := some now }
    else bumpState s trade

/-- `executeTrade` (twap.ts lines 363-527): no-op unless a config is set;
insert a pending trade row; on success update the row and post the trade to
the user's ledger balances, on any thrown error record the failed row with
the error text (the error is caught, never re-thrown); finally run
`finishTrade` in both cases. -/
def executeTrade (s : SchedState) (now : ℕ) (o : SliceOutcome) : SchedState :=
  match s.twapConfig with
  | none => s
  | some cfg =>
    let amountPerTrade := cfg.totalAmount / (cfg.numTrades : ℚ)
    let tradeId := "trade-" ++ toString now ++ "-" ++ toString (s.tradesCompleted + 1)
    let pending : TradeExecution := ⟨tradeId, now, amountPerTrade, 0, "", .pending, none⟩
    let db1 := { s.db with
      trades := insertTrade s.db.trades pending s.currentSessionId s.currentWalletAddress }
    match o with
    | .success aOut h =>
      let trade : TradeExecution := { pending with txHash := h, amountOut := aOut, status := .success }
      let db2 := { db1 with
        trades := updateTradeStatus db1.trades tradeId .success (some h) (some aOut) none }
      let db3 :=
        match s.currentWalletAddress with
        | some w =>
          { db2 with ledger := (recordTrade db2.ledger w (tokenName cfg.tokenIn) amountPerTrade
              (tokenName cfg.tokenOut) aOut) }
        | none => db2
      finishTrade { s with db := db3 } now trade
    | .failure msg =>
      let trade : TradeExecution := { pending with status := .failed, error := some msg }
      let db2 := { db1 with
        trades := updateTradeStatus db1.trades tradeId .failed none none (some msg) }
      finishTrade { s with db := db2 } now trade

/-- The synchronous rejection paths of `startTWAP` (the error strings of
twap.ts lines 193-228, given as structured values because the insufficient
balance message interpolates float formatting). -/
inductive TwapError where
  | alreadyRunning
  | invalidTotalAmount
  | invalidNumTrades
  | invalidInterval
  | insufficientBalance
deriving DecidableEq, Repr

/-- The wallet-balance precondition of startTWAP (twap.ts lines 210-228):
when a wallet address is supplied, its available ledger balance for tokenIn
must cover `totalAmount`. -/
def walletBalanceTooLow (s : SchedState) (cfg : TWAPConfig) (wallet : Option String) : Bool :=
  match wallet with
  | some w => (getWalletBalance s.db.ledger w (tokenName cfg.tokenIn)).available < cfg.totalAmount
  | none => false

/-- `startTWAP`, DB-backed variant (twap.ts lines 193-270): guard on a live
interval; validate the config; when a wallet is supplied, check its
available ledger balance for tokenIn against `totalAmount` before any state
is mutated; then set the in-process state, insert the active session row,
execute slice 1 to completion, arm the interval for the remaining slices
when `numTrades > 1`, and return the resulting snapshot. -/
def startTWAP (s : SchedState) (now : ℕ) (cfg : TWAPConfig) (wallet : Option String)
    (o : SliceOutcome) : Except TwapError (SchedState × TWAPStatus) :=
  if s.twapIntervalArmed then .error .alreadyRunning
  else if cfg.totalAmount ≤ 0 then .error .invalidTotalAmount
  else if cfg.numTrades = 0 then .error .invalidNumTrades
  else if cfg.intervalMs < 1000 then .error .invalidInterval
  else if walletBalanceTooLow s cfg wallet then .error .insufficientBalance
  else
    let s1 := { s with twapConfig := some cfg, tradesCompleted := 0,
                       startedAt := some now, nextTradeAt := some now,
                       currentWalletAddress := wallet }
    let sid := s1.db.nextSessionId
    let row : SessionRow := ⟨sid, cfg, now, none, 0, cfg.numTrades, .active, wallet⟩
    let s2 := { s1 with
      db := { s1.db with sessions := s1.db.sessions ++ [row], nextSessionId := sid + 1 },
      currentSessionId := some sid }
    let s3 := executeTrade s2 now o
    let s4 :=
      if 1 < cfg.numTrades then
        { s3 with twapIntervalArmed := true, nextTradeAt := some (now + cfg.intervalMs) }
      else s3
    .ok (s4, getTWAPStatus s4)

/-- `restoreActiveSession` (twap.ts lines 598-630): look up the persisted
active session; when one exists, mark it stopped with a `stoppedAt`
timestamp instead of resuming it; never re-arm a timer, always report no
session restored. -/
def restoreActiveSession (s : SchedState) (now : ℕ) : SchedState × Bool :=
  match getActiveSession s.db.sessions with
  | none => (s, false)
  | some sess =>
    ({ s with db := { s.db with
        sessions := updateTWAPSession s.db.sessions sess.id ⟨none, some .stopped, some now⟩ } },
     false)

/-- One externally triggered scheduler operation.  `start` and `tick` carry
the collaborator outcome for the slice they execute; `restart` models a
process crash and restart: the module-level state dies with the process and
`restoreActiveSession` runs at startup (src/unnamed/part_006). -/
inductive SchedOp where
  | start (now : ℕ) (cfg : TWAPConfig) (wallet : Option String) (o : SliceOutcome)
  | tick (now : ℕ) (o : SliceOutcome)
  | stop (now : ℕ)
  | restart (now : ℕ)

/-- Small-step semantics of the scheduler service: each operation runs to
completion on the cooperative event loop before the next begins.  A start
call that throws leaves the state untouched (every throw in startTWAP
happens before any mutation). -/
def step (s : SchedState) : SchedOp → SchedState
  | .start now cfg w o =>
    match startTWAP s now cfg w o with
    | .ok (s', _) => s'
    | .error _ => s
  | .tick now o => executeTrade s now o
  | .stop now => (stopTWAP s now).1
  | .restart now => (restoreActiveSession (SchedState.init s.db) now).1

/-- Run a sequence of scheduler operations from the pristine state. -/
def runOps (ops : List SchedOp) : SchedState :=
  ops.foldl step (SchedState.init Database.empty)

/-! ## TWAP scheduler, legacy in-memory variant (services/twap.ts lines
1-173).  This earlier variant of the file keeps no database and does not
await its slice executions: `startTWAP` (lines 14-49) calls the async
`executeTrade()` without `await`, so the slice body suspends at its first
`await getBalance()` and all its observable effects happen only after
`startTWAP` has already returned its snapshot. -/

/-- Module-level state of the legacy scheduler variant.  `pendingSlices`
counts `executeTrade()` invocations that have been fired but whose bodies
have not yet run past their first suspension point. -/
structure LegacyState where
  twapConfig : Option TWAPConfig
  twapIntervalArmed : Bool
  tradesCompleted : ℕ
  startedAt : Option ℕ
  nextTradeAt : Option ℕ
  tradeHistory : List TradeExecution
  pendingSlices : ℕ
deriving DecidableEq, Repr

def LegacyState.init : LegacyState := ⟨none, false, 0, none, none, [], 0⟩

/-- `getTWAPStatus`, legacy variant (twap.ts lines 70-79). -/
def legacyGetTWAPStatus (s : LegacyState) : TWAPStatus :=
  ⟨s.twapIntervalArmed || (s.twapConfig.isSome && s.tradesCompleted == 0),
   s.twapConfig,
   s.tradesCompleted,
   (s.twapConfig.map TWAPConfig.numTrades).getD 0,
   s.nextTradeAt,
   s.startedAt,
   none⟩

/-- `startTWAP`, legacy variant (twap.ts lines 14-49): same guard and
validation, then set the state and fire `executeTrade()` WITHOUT awaiting
it (line 38) — the slice is only queued, its effects land after return —
arm the interval when `numTrades > 1`, and return the snapshot. -/
def legacyStartTWAP (s : LegacyState) (now : ℕ) (cfg : TWAPConfig) :
    Except TwapError (LegacyState × TWAPStatus) :=
  if s.twapIntervalArmed then .error .alreadyRunning
  else if cfg.totalAmount ≤ 0 then .error .invalidTotalAmount
  else if cfg.numTrades = 0 then .error .invalidNumTrades
  else if cfg.intervalMs < 1000 then .error .invalidInterval
  else
    let s1 := { s with twapConfig := some cfg, tradesCompleted := 0,
                       startedAt := some now, nextTradeAt := some now,
                       pendingSlices := s.pendingSlices + 1 }
    let s2 :=
      if 1 < cfg.numTrades then
        { s1 with twapIntervalArmed := true, nextTradeAt := some (now + cfg.intervalMs) }
      else s1
    .ok (s2, legacyGetTWAPStatus s2)

/-! ## POST /withdraw route (src/unnamed/part_008, lines 198-301) -/

/-- The rejection paths of the withdraw route, as structured values for the
route's error strings. -/
inductive WithdrawError where
  | noWallet
  | badDestination
  | badAmount
  | badToken
  | insufficientUserBalance
  | insufficientBotBalance
  | transferFailed (msg : String)
deriving DecidableEq, Repr

/-- An observable outward side effect of the withdraw route. -/
inductive WEffect where
  | chainTransfer (dest : String) (tokenType : String) (amount : ℚ)
deriving DecidableEq, Repr

/-- The token-name normalization of the withdraw route (part_008 lines
227-242). -/
def normalizeToken (token : String) : Option (String × String) :=
  if token == "USDC" || token == usdcTokenType then some ("USDC", usdcTokenType)
  else if token == "MOVE" || token == moveTokenType then some ("MOVE", moveTokenType)
  else none

/-- `POST /withdraw` (part_008 lines 198-301): validate inputs, check the
requesting user's available ledger balance, check the bot wallet's on-chain
balance, and only then attempt the on-chain transfer (`withdrawTokens`,
modelled by the `transferResult` oracle and recorded as a `chainTransfer`
effect); on success record the withdrawal with status success.  The second
component lists the outward chain transfers attempted. -/
def postWithdraw (walletConfigured : Bool) (L : Ledger) (botBalance : String → ℚ)
    (transferResult : Except String String) (dest : String) (token : String) (amount : ℚ) :
    Except WithdrawError (Ledger × String) × List WEffect :=
  if !walletConfigured then (.error .noWallet, [])
  else if dest == "" then (.error .badDestination, [])
  else if amount ≤ 0 then (.error .badAmount, [])
  else
    match normalizeToken token with
    | none => (.error .badToken, [])
    | some (tokName, tokType) =>
      if (getWalletBalance L dest tokName).available < amount then
        (.error .insufficientUserBalance, [])
      else if botBalance tokName < amount then
        (.error .insufficientBotBalance, [])
      else
        match transferResult with
        | .error msg => (.error (.transferFailed msg), [.chainTransfer dest tokType amount])
        | .ok txHash =>
          (.ok (recordWithdrawal L dest tokName amount txHash .success, txHash),
           [.chainTransfer dest tokType amount])

/-! ## Concrete instances used to exercise the general theorems below -/

/-- A started three-slice schedule whose first slice failed, then an explicit
stop: its session row ends in the terminal `stopped` status. -/
def c3ops : List SchedOp :=
  [SchedOp.start 0 ⟨600, 3, 3600000, 50, usdcTokenType, moveTokenType⟩ none
     (SliceOutcome.failure "boom"),
   SchedOp.stop 1]

/-- The session row persisted by `c3ops`. -/
def c3row : SessionRow :=
  ⟨0, ⟨600, 3, 3600000, 50, usdcTokenType, moveTokenType⟩, 0, some 1, 1, 3,
   SessionStatus.stopped, none⟩

/-- A ten-slice schedule over totalAmount 1000 in which every slice succeeds. -/
def c4ops : List SchedOp :=
  [SchedOp.start 0 ⟨1000, 10, 3600000, 50, usdcTokenType, moveTokenType⟩ none
     (SliceOutcome.success 7 "h0"),
   SchedOp.tick 1 (SliceOutcome.success 7 "h1"),
   SchedOp.tick 2 (SliceOutcome.success 7 "h2"),
   SchedOp.tick 3 (SliceOutcome.success 7 "h3"),
   SchedOp.tick 4 (SliceOutcome.success 7 "h4"),
   SchedOp.tick 5 (SliceOutcome.success 7 "h5"),
   SchedOp.tick 6 (SliceOutcome.success 7 "h6"),
   SchedOp.tick 7 (SliceOutcome.success 7 "h7"),
   SchedOp.tick 8 (SliceOutcome.success 7 "h8"),
   SchedOp.tick 9 (SliceOutcome.success 7 "h9")]

/-- A started five-slice schedule whose first slice succeeded, left running. -/
def c5ops : List SchedOp :=
  [SchedOp.start 0 ⟨1000, 5, 3600000, 50, usdcTokenType, moveTokenType⟩ none
     (SliceOutcome.success 5 "hA")]

/-- A database whose ledger holds a single 500 USDC deposit for wallet 0xW. -/
def c6db : Database :=
  { Database.empty with ledger := recordDeposit Ledger.empty "0xW" "USDC" 500 (some "tx1") }

/-- A started three-slice schedule left running: its session row is still
active when the process dies. -/
def c9ops : List SchedOp :=
  [SchedOp.start 0 ⟨900, 3, 3600000, 50, usdcTokenType, moveTokenType⟩ none
     (SliceOutcome.failure "down")]

/-- The still-active session row persisted by `c9ops`. -/
def c9row : SessionRow :=
  ⟨0, ⟨900, 3, 3600000, 50, usdcTokenType, moveTokenType⟩, 0, none, 1, 3,
   SessionStatus.active, none⟩

/-! ## Ledger lemmas -/

theorem balKeyMatches_of_keys_eq {g : BalRow → BalRow}
    (hg : ∀ r, (g r).wallet = r.wallet ∧ (g r).token = r.token) (w tok : String) (r : BalRow) :
    balKeyMatches w tok (g r) = balKeyMatches w tok r := by
  simp [balKeyMatches, (hg r).1, (hg r).2]

theorem findBal_map {g : BalRow → BalRow}
    (hg : ∀ r, (g r).wallet = r.wallet ∧ (g r).token = r.token) (t : List BalRow)
    (w tok : String) :
    findBal (t.map g) w tok = (findBal t w tok).map g := by
  unfold findBal
  rw [List.find?_map]
  have hpred : (balKeyMatches w tok ∘ g) = balKeyMatches w tok := by
    funext r
    exact balKeyMatches_of_keys_eq hg w tok r
  rw [hpred]

theorem updWithdrawn_keys (w tok : String) (amt : ℚ) (r : BalRow) :
    ((fun r => if balKeyMatches w tok r then { r with withdrawn := r.withdrawn + amt } else r) r).wallet = r.wallet ∧
    ((fun r => if balKeyMatches w tok r then { r with withdrawn := r.withdrawn + amt } else r) r).token = r.token := by
  by_cases h : balKeyMatches w tok r <;> simp [h]

theorem updTraded_keys (w tok : String) (amt : ℚ) (r : BalRow) :
    ((fun r => if balKeyMatches w tok r then { r with traded := r.traded + amt } else r) r).wallet = r.wallet ∧
    ((fun r => if balKeyMatches w tok r then { r with traded := r.traded + amt } else r) r).token = r.token := by
  by_cases h : balKeyMatches w tok r <;> simp [h]

theorem updWithdrawn_of_findBal_none {t : List BalRow} {w tok : String}
    (h : findBal t w tok = none) (amt : ℚ) : updWithdrawn t w tok amt = t := by
  unfold updWithdrawn
  have hall : ∀ r ∈ t, balKeyMatches w tok r = false := by
    intro r hr
    have := List.find?_eq_none.mp h r hr
    simpa using this
  calc t.map (fun r => if balKeyMatches w tok r then { r with withdrawn := r.withdrawn + amt } else r)
      = t.map id := List.map_congr_left (fun r hr => by simp [hall r hr])
    _ = t := List.map_id t

theorem updTraded_of_findBal_none {t : List BalRow} {w tok : String}
    (h : findBal t w tok = none) (amt : ℚ) : updTraded t w tok amt = t := by
  unfold updTraded
  have hall : ∀ r ∈ t, balKeyMatches w tok r = false := by
    intro r hr
    have := List.find?_eq_none.mp h r hr
    simpa using this
  calc t.map (fun r => if balKeyMatches w tok r then { r with traded := r.traded + amt } else r)
      = t.map id := List.map_congr_left (fun r hr => by simp [hall r hr])
    _ = t := List.map_id t

theorem findBal_updWithdrawn (t : List BalRow) (w tok : String) (amt : ℚ) {r : BalRow}
    (h : findBal t w tok = some r) :
    findBal (updWithdrawn t w tok amt) w tok = some { r with withdrawn := r.withdrawn + amt } := by
  unfold updWithdrawn
  rw [findBal_map (updWithdrawn_keys w tok amt), h]
  have hr : balKeyMatches w tok r = true := List.find?_some h
  simp [hr]

/-! ## Claim C1: recordDeposit and txHash idempotence -/

/-- C1 counterexample: calling the Ledger operation `recordDeposit` twice
with the same `txHash` does NOT credit `deposited` exactly once — after
two identical 50-unit calls with hash `0xabc`, the wallet's deposited
balance is 100, not 50.  `recordDeposit` performs no dedup check itself,
and `deposit_transactions.tx_hash` carries no unique constraint. -/
theorem recordDeposit_double_credit_counterexample :
    (getWalletBalance (recordDeposit (recordDeposit Ledger.empty "w" "USDC" 50 (some "0xabc"))
      "w" "USDC" 50 (some "0xabc")) "w" "USDC").deposited = 100 ∧ (100 : ℚ) ≠ 50 := by
  constructor
  · with_unfolding_all rfl
  · norm_num

/-- C1 amended: the exactly-once crediting per `txHash` holds one level up,
in the deposit-scan path of `checkForNewDeposits`: that path re-checks
`getDepositByTxHash` before calling `recordDeposit`, so scanning the same
transaction hash a second time (with any wallet, token or parsed amount)
leaves the ledger unchanged, crediting `deposited` exactly once. -/
theorem scan_same_txHash_credits_once (L : Ledger) (w tok : String) (amt : ℚ) (h : String)
    (w2 tok2 : String) (amt2 : ℚ) :
    scanDepositTx (scanDepositTx L w tok amt h) w2 tok2 amt2 h = scanDepositTx L w tok amt h := by
  unfold scanDepositTx
  cases hfound : getDepositByTxHash L h with
  | some d => simp [hfound]
  | none =>
    have hrec : getDepositByTxHash (recordDeposit L w tok amt (some h)) h
        = some ⟨w, tok, amt, some h, true⟩ := by
      unfold getDepositByTxHash recordDeposit at *
      rw [List.find?_append, hfound]
      simp
    simp [hfound, hrec]

/-- C1 amended, witness: a concrete double scan of hash `0xabc` credits 50
exactly once. -/
theorem scan_same_txHash_credits_once_witness :
    scanDepositTx (scanDepositTx Ledger.empty "w" "USDC" 50 "0xabc") "w" "USDC" 50 "0xabc"
      = scanDepositTx Ledger.empty "w" "USDC" 50 "0xabc" :=
  scan_same_txHash_credits_once Ledger.empty "w" "USDC" 50 "0xabc" "w" "USDC" 50

/-! ## Claim C2: getWalletBalance -/

/-- C2: for every ledger state, wallet and token, `getWalletBalance` returns
`available = max 0 (deposited - withdrawn - traded)`, hence `available` is
never negative, and it returns the all-zero summary (it cannot fail) when no
`wallet_balances` row exists for the pair. -/
theorem getWalletBalance_available_spec (L : Ledger) (w tok : String) :
    (getWalletBalance L w tok).available
        = max 0 ((getWalletBalance L w tok).deposited - (getWalletBalance L w tok).withdrawn
            - (getWalletBalance L w tok).traded) ∧
    0 ≤ (getWalletBalance L w tok).available ∧
    (findBal L.balances w tok = none → getWalletBalance L w tok = ⟨0, 0, 0, 0⟩) := by
  unfold getWalletBalance
  cases hfind : findBal L.balances w tok with
  | none => refine ⟨by norm_num, le_refl 0, fun _ => rfl⟩
  | some r => exact ⟨rfl, le_max_left 0 _, fun hcontra => by simp at hcontra⟩

/-- C2 witness at a concrete unknown wallet over the empty ledger. -/
theorem getWalletBalance_available_spec_witness :
    getWalletBalance Ledger.empty "nobody" "USDC" = ⟨0, 0, 0, 0⟩ :=
  (getWalletBalance_available_spec Ledger.empty "nobody" "USDC").2.2 rfl

/-! ## Claim C8: withdrawal gating -/

/-- C8: a withdrawal request for more than the requesting wallet's available
ledger balance is rejected with the insufficient-balance error and no
on-chain transfer is attempted (empty effect list); and `recordWithdrawal`
increments the `withdrawn` component only for rows recorded with status
success — a non-success status leaves every balance row unchanged, while a
success recording adds the amount to the existing row's `withdrawn`. -/
theorem withdraw_insufficient_rejected (wc : Bool) (L : Ledger) (bot : String → ℚ)
    (tr : Except String String) (dest token : String) (amount : ℚ)
    (tokName tokType : String)
    (hwc : wc = true) (hdest : (dest == "") = false) (hamt : 0 < amount)
    (htok : normalizeToken token = some (tokName, tokType))
    (hbal : (getWalletBalance L dest tokName).available < amount) :
    postWithdraw wc L bot tr dest token amount = (.error .insufficientUserBalance, []) ∧
    (∀ (L' : Ledger) (w tok : String) (amt : ℚ) (h : String) (st : TradeStatus),
      st ≠ .success → (recordWithdrawal L' w tok amt h st).balances = L'.balances) ∧
    (∀ (L' : Ledger) (w tok : String) (amt : ℚ) (h : String) (r : BalRow),
      findBal L'.balances w tok = some r →
      (getWalletBalance (recordWithdrawal L' w tok amt h .success) w tok).withdrawn
        = (getWalletBalance L' w tok).withdrawn + amt) := by
  refine ⟨?_, ?_, ?_⟩
  · unfold postWithdraw
    rw [hwc]
    simp only [Bool.not_true, Bool.false_eq_true, if_false, hdest, htok, not_lt.mpr (le_of_lt hamt)]
    simp [hbal, not_le.mpr hamt]
  · intro L' w tok amt h st hst
    unfold recordWithdrawal
    have : (st == TradeStatus.success) = false := by
      cases st <;> simp_all
    simp [this]
  · intro L' w tok amt h r hfind
    unfold recordWithdrawal
    simp only [beq_self_eq_true, if_true]
    unfold getWalletBalance
    rw [hfind, findBal_updWithdrawn L'.balances w tok amt hfind]

/-- C8 witness: with 150 USDC available, a 200-USDC withdrawal is rejected
with no transfer attempted, and the non-success and success bookkeeping
conclusions hold. -/
theorem withdraw_insufficient_rejected_witness :
    postWithdraw true
      ⟨[⟨"u", "USDC", 150, 0, 0⟩], [], []⟩ (fun _ => 1000000) (.ok "0xgood") "u" "USDC" 200
      = (.error .insufficientUserBalance, []) :=
  (withdraw_insufficient_rejected true ⟨[⟨"u", "USDC", 150, 0, 0⟩], [], []⟩
    (fun _ => 1000000) (.ok "0xgood") "u" "USDC" 200 "USDC" usdcTokenType
    rfl rfl (by norm_num) rfl (by with_unfolding_all decide)).1

/-! ## Claim C10: frame effects for missing balance rows -/

/-- C10: when no `wallet_balances` row exists for the pair, a success
`recordWithdrawal` and the tokenIn side of `recordTrade` leave every
balance row unchanged (their plain UPDATE matches zero rows) while the
audit side-effects still happen: the `withdrawal_transactions` row is
appended, and `recordTrade`'s tokenOut side still upserts — in particular
creating a fresh row credited with `amountOut` when the tokenOut row is
missing too. -/
theorem missing_balance_row_frame (L : Ledger) (w tok : String) (amt : ℚ) (h : String)
    (aIn : ℚ) (tokOut : String) (aOut : ℚ)
    (hnone : findBal L.balances w tok = none) :
    (recordWithdrawal L w tok amt h .success).balances = L.balances ∧
    (recordWithdrawal L w tok amt h .success).withdrawals
       = L.withdrawals ++ [⟨w, tok, amt, h, .success⟩] ∧
    (recordTrade L w tok aIn tokOut aOut).balances = upsertDeposited L.balances w tokOut aOut ∧
    (findBal L.balances w tokOut = none →
      (recordTrade L w tok aIn tokOut aOut).balances = L.balances ++ [⟨w, tokOut, aOut, 0, 0⟩]) := by
  refine ⟨?_, rfl, ?_, ?_⟩
  · unfold recordWithdrawal
    simp [updWithdrawn_of_findBal_none hnone]
  · unfold recordTrade
    simp [updTraded_of_findBal_none hnone]
  · intro hnone2
    unfold recordTrade upsertDeposited
    simp [updTraded_of_findBal_none hnone, hnone2]

/-- C10 witness at a concrete ledger with only an unrelated MOVE row. -/
theorem missing_balance_row_frame_witness :
    (recordWithdrawal ⟨[⟨"u", "MOVE", 3, 0, 0⟩], [], []⟩ "u" "USDC" 5 "0xw" .success).balances
        = [⟨"u", "MOVE", 3, 0, 0⟩] ∧
    (recordTrade ⟨[⟨"u", "MOVE", 3, 0, 0⟩], [], []⟩ "u" "USDC" 5 "WETH" 7).balances
        = [⟨"u", "MOVE", 3, 0, 0⟩, ⟨"u", "WETH", 7, 0, 0⟩] := by
  have h := missing_balance_row_frame ⟨[⟨"u", "MOVE", 3, 0, 0⟩], [], []⟩ "u" "USDC" 5 "0xw" 5
    "WETH" 7 (by with_unfolding_all rfl)
  exact ⟨h.1, h.2.2.2 (by with_unfolding_all rfl)⟩

/-! ## Session-table lemmas -/

@[simp] theorem applySessionUpdate_id (u : SessionUpdate) (r : SessionRow) :
    (applySessionUpdate u r).id = r.id := rfl

@[simp] theorem applySessionUpdate_totalTrades (u : SessionUpdate) (r : SessionRow) :
    (applySessionUpdate u r).totalTrades = r.totalTrades := rfl

theorem updateTWAPSession_ids (sessions : List SessionRow) (sid : ℕ) (u : SessionUpdate) :
    (updateTWAPSession sessions sid u).map SessionRow.id = sessions.map SessionRow.id := by
  unfold updateTWAPSession
  rw [List.map_map]
  apply List.map_congr_left
  intro r _
  simp only [Function.comp]
  split <;> simp

theorem updateTWAPSession_mem {sessions : List SessionRow} {sid : ℕ} {u : SessionUpdate}
    {r' : SessionRow} (h : r' ∈ updateTWAPSession sessions sid u) :
    ∃ r ∈ sessions, r' = if (r.id == sid) then applySessionUpdate u r else r := by
  unfold updateTWAPSession at h
  obtain ⟨r, hr, hmap⟩ := List.mem_map.mp h
  exact ⟨r, hr, hmap.symm⟩

theorem updateTWAPSession_mem_of_mem {sessions : List SessionRow} {sid : ℕ} {u : SessionUpdate}
    {r : SessionRow} (h : r ∈ sessions) :
    (if (r.id == sid) then applySessionUpdate u r else r) ∈ updateTWAPSession sessions sid u :=
  List.mem_map.mpr ⟨r, h, rfl⟩

theorem updateTWAPSession_mem_other {sessions : List SessionRow} {sid : ℕ} {u : SessionUpdate}
    {r : SessionRow} (h : r ∈ sessions) (hne : r.id ≠ sid) :
    r ∈ updateTWAPSession sessions sid u := by
  have hmm := @updateTWAPSession_mem_of_mem sessions sid u r h
  rwa [if_neg (by simpa using hne)] at hmm

theorem maxIdRow_mem : ∀ {l : List SessionRow} {r : SessionRow}, maxIdRow l = some r → r ∈ l := by
  intro l
  induction l with
  | nil => intro r h; simp [maxIdRow] at h
  | cons a rs ih =>
    intro r h
    unfold maxIdRow at h
    cases hm : maxIdRow rs with
    | none => rw [hm] at h; dsimp only at h; simp at h; simp [h]
    | some m =>
      rw [hm] at h
      dsimp only at h
      by_cases hlt : m.id < a.id
      · rw [if_pos hlt] at h
        simp at h
        simp [h]
      · rw [if_neg hlt] at h
        simp at h
        exact List.mem_cons_of_mem a (ih (h ▸ hm))

theorem maxIdRow_eq_none : ∀ {l : List SessionRow}, maxIdRow l = none → l = [] := by
  intro l h
  cases l with
  | nil => rfl
  | cons a rs =>
    unfold maxIdRow at h
    cases hm : maxIdRow rs with
    | none => rw [hm] at h; dsimp only at h; simp at h
    | some m =>
      rw [hm] at h
      dsimp only at h
      by_cases hlt : m.id < a.id
      · rw [if_pos hlt] at h; simp at h
      · rw [if_neg hlt] at h; simp at h

theorem getActiveSession_active {sessions : List SessionRow} {r : SessionRow}
    (h : getActiveSession sessions = some r) : r ∈ sessions ∧ r.status = .active := by
  unfold getActiveSession at h
  have hmem := maxIdRow_mem h
  have := List.mem_filter.mp hmem
  exact ⟨this.1, by simpa using this.2⟩

theorem getActiveSession_none {sessions : List SessionRow}
    (h : getActiveSession sessions = none) : ∀ r ∈ sessions, r.status ≠ .active := by
  unfold getActiveSession at h
  have hempty := maxIdRow_eq_none h
  intro r hr hact
  have : r ∈ sessions.filter (fun r => r.status == .active) :=
    List.mem_filter.mpr ⟨hr, by simp [hact]⟩
  rw [hempty] at this
  simp at this

/-! ## The scheduler reachability invariant -/

/-- Invariant fields of the scheduler state that concern the session table
and the in-process pointers, re-established after every operation. -/
structure InvCore (s : SchedState) : Prop where
  nodup : (s.db.sessions.map SessionRow.id).Nodup
  idsLt : ∀ r ∈ s.db.sessions, r.id < s.db.nextSessionId
  bounds : ∀ r ∈ s.db.sessions, r.tradesCompleted ≤ r.totalTrades
  curActive : ∀ sid, s.currentSessionId = some sid →
    ∃ r, r ∈ s.db.sessions ∧ r.id = sid ∧ r.status = SessionStatus.active
  curCfg : s.currentSessionId.isSome → s.twapConfig.isSome
  cfgLt : ∀ cfg, s.twapConfig = some cfg → s.tradesCompleted < cfg.numTrades
  curTotal : ∀ sid cfg r, s.currentSessionId = some sid → s.twapConfig = some cfg →
    r ∈ s.db.sessions → r.id = sid → r.totalTrades = cfg.numTrades
  activeIsCur : ∀ r ∈ s.db.sessions, r.status = SessionStatus.active →
    s.currentSessionId = some r.id

/-- The full reachability invariant: the core fields plus the fact that a
set config implies a live interval at operation boundaries. -/
def Inv (s : SchedState) : Prop :=
  InvCore s ∧ (s.twapConfig.isSome → s.twapIntervalArmed = true)

theorem inv_init (db : Database) (hCore : InvCore (SchedState.init db)) :
    Inv (SchedState.init db) :=
  ⟨hCore, fun h => by simp [SchedState.init] at h⟩

theorem invCore_empty : InvCore (SchedState.init Database.empty) := by
  constructor <;> simp [SchedState.init, Database.empty]

theorem invCore_of_eq {s s' : SchedState}
    (h1 : s'.db.sessions = s.db.sessions) (h2 : s'.db.nextSessionId = s.db.nextSessionId)
    (h3 : s'.currentSessionId = s.currentSessionId) (h4 : s'.twapConfig = s.twapConfig)
    (h5 : s'.tradesCompleted = s.tradesCompleted) (hc : InvCore s) : InvCore s' := by
  constructor
  · rw [h1]; exact hc.nodup
  · rw [h1, h2]; exact hc.idsLt
  · rw [h1]; exact hc.bounds
  · rw [h3, h1]; exact hc.curActive
  · rw [h3, h4]; exact hc.curCfg
  · rw [h4, h5]; exact hc.cfgLt
  · rw [h3, h4, h1]; exact hc.curTotal
  · rw [h1, h3]; exact hc.activeIsCur

/-! ## stopTWAP lemmas -/

theorem stopTWAP_state (s : SchedState) (now : ℕ) :
    (stopTWAP s now).1.twapConfig = none ∧
    (stopTWAP s now).1.twapIntervalArmed = false ∧
    (stopTWAP s now).1.currentSessionId = none ∧
    (stopTWAP s now).1.currentWalletAddress = none ∧
    (stopTWAP s now).1.nextTradeAt = none ∧
    (stopTWAP s now).1.tradesCompleted = s.tradesCompleted ∧
    (stopTWAP s now).1.tradeHistory = s.tradeHistory ∧
    (stopTWAP s now).1.db.nextSessionId = s.db.nextSessionId ∧
    (stopTWAP s now).1.db.trades = s.db.trades ∧
    (stopTWAP s now).1.db.ledger = s.db.ledger := by
  unfold stopTWAP
  cases h : s.currentSessionId <;> simp [h]

theorem stopTWAP_sessions_none {s : SchedState} {now : ℕ} (h : s.currentSessionId = none) :
    (stopTWAP s now).1.db.sessions = s.db.sessions := by
  unfold stopTWAP
  simp [h]

theorem stopTWAP_sessions_some {s : SchedState} {now : ℕ} {sid : ℕ}
    (h : s.currentSessionId = some sid) :
    (stopTWAP s now).1.db.sessions = updateTWAPSession s.db.sessions sid
      ⟨some s.tradesCompleted,
       some (if ((s.twapConfig.map TWAPConfig.numTrades).getD 0) ≤ s.tradesCompleted then
          SessionStatus.completed else SessionStatus.stopped),
       some now⟩ := by
  unfold stopTWAP
  simp [h]

theorem stopTWAP_ids (s : SchedState) (now : ℕ) :
    (stopTWAP s now).1.db.sessions.map SessionRow.id = s.db.sessions.map SessionRow.id := by
  cases h : s.currentSessionId with
  | none => rw [stopTWAP_sessions_none h]
  | some sid => rw [stopTWAP_sessions_some h, updateTWAPSession_ids]

theorem invCore_stop (s : SchedState) (now : ℕ)
    (hnodup : (s.db.sessions.map SessionRow.id).Nodup)
    (hidsLt : ∀ r ∈ s.db.sessions, r.id < s.db.nextSessionId)
    (hbounds : ∀ r ∈ s.db.sessions, r.tradesCompleted ≤ r.totalTrades)
    (hactive : ∀ r ∈ s.db.sessions, r.status = SessionStatus.active →
      s.currentSessionId = some r.id)
    (hts : ∀ sid, s.currentSessionId = some sid →
      ∀ r ∈ s.db.sessions, r.id = sid → s.tradesCompleted ≤ r.totalTrades) :
    InvCore (stopTWAP s now).1 ∧
    (∀ r' ∈ (stopTWAP s now).1.db.sessions, r'.status ≠ SessionStatus.active) := by
  obtain ⟨hcfg, harm, hcur, -, -, htc, -, hnext, -, -⟩ := stopTWAP_state s now
  have hmem : ∀ r' ∈ (stopTWAP s now).1.db.sessions,
      (r' ∈ s.db.sessions ∧ r'.status ≠ SessionStatus.active) ∨
      (∃ r ∈ s.db.sessions, s.currentSessionId = some r.id ∧ r'.id = r.id ∧
        r'.totalTrades = r.totalTrades ∧ r'.tradesCompleted = s.tradesCompleted ∧
        r'.status ≠ SessionStatus.active) := by
    intro r' hr'
    cases hc : s.currentSessionId with
    | none =>
      rw [stopTWAP_sessions_none hc] at hr'
      left
      refine ⟨hr', fun hact => ?_⟩
      have := hactive r' hr' hact
      rw [hc] at this
      exact Option.noConfusion this
    | some sid =>
      rw [stopTWAP_sessions_some hc] at hr'
      obtain ⟨r, hr, heq⟩ := updateTWAPSession_mem hr'
      by_cases hid : (r.id == sid)
      · right
        rw [if_pos hid] at heq
        refine ⟨r, hr, ?_, ?_, ?_, ?_, ?_⟩
        · have hid2 : r.id = sid := by simpa using hid
          exact congrArg some hid2.symm
        · rw [heq]; simp
        · rw [heq]; simp
        · rw [heq]; simp [applySessionUpdate]
        · rw [heq]
          simp only [applySessionUpdate]
          split <;> simp
      · left
        rw [if_neg hid] at heq
        subst heq
        refine ⟨hr, fun hact => ?_⟩
        have h2 : some sid = some r'.id := hc.symm.trans (hactive r' hr hact)
        have h3 : r'.id = sid := (Option.some.inj h2).symm
        exact hid (by simp [h3])
  constructor
  · constructor
    · rw [stopTWAP_ids]; exact hnodup
    · intro r' hr'
      rw [hnext]
      rcases hmem r' hr' with ⟨hr, -⟩ | ⟨r, hr, -, hid, -, -, -⟩
      · exact hidsLt r' hr
      · rw [hid]; exact hidsLt r hr
    · intro r' hr'
      rcases hmem r' hr' with ⟨hr, -⟩ | ⟨r, hr, hcurr, hid, htot, htc', -⟩
      · exact hbounds r' hr
      · rw [htc', htot]
        exact hts r.id hcurr r hr rfl
    · intro sid hsid; rw [hcur] at hsid; exact Option.noConfusion hsid
    · intro hsome; rw [hcur] at hsome; simp at hsome
    · intro cfg hcfg'; rw [hcfg] at hcfg'; exact Option.noConfusion hcfg'
    · intro sid cfg r hsid; rw [hcur] at hsid; exact absurd hsid (by simp)
    · intro r' hr' hact
      rcases hmem r' hr' with ⟨-, hne⟩ | ⟨-, -, -, -, -, -, hne⟩ <;> exact absurd hact hne
  · intro r' hr'
    rcases hmem r' hr' with ⟨-, hne⟩ | ⟨-, -, -, -, -, -, hne⟩ <;> exact hne

/-! ## finishTrade and executeTrade lemmas -/

theorem bumpSessions_ids (sessions : List SessionRow) (cur : Option ℕ) (n : ℕ) :
    (bumpSessions sessions cur n).map SessionRow.id = sessions.map SessionRow.id := by
  cases cur with
  | none => rfl
  | some sid => exact updateTWAPSession_ids sessions sid _

theorem bumpSessions_mem {sessions : List SessionRow} {cur : Option ℕ} {n : ℕ}
    {r' : SessionRow} (h : r' ∈ bumpSessions sessions cur n) :
    ∃ r ∈ sessions, r'.id = r.id ∧ r'.totalTrades = r.totalTrades ∧ r'.status = r.status ∧
      (r'.tradesCompleted = r.tradesCompleted ∨ (cur = some r.id ∧ r'.tradesCompleted = n)) := by
  cases cur with
  | none => exact ⟨r', h, rfl, rfl, rfl, Or.inl rfl⟩
  | some sid =>
    obtain ⟨r, hr, heq⟩ := updateTWAPSession_mem h
    by_cases hid : (r.id == sid)
    · rw [if_pos hid] at heq
      have hid2 : r.id = sid := by simpa using hid
      subst heq
      exact ⟨r, hr, rfl, rfl, by simp [applySessionUpdate],
        Or.inr ⟨by rw [hid2], by simp [applySessionUpdate]⟩⟩
    · rw [if_neg hid] at heq
      rw [heq]
      exact ⟨r, hr, rfl, rfl, rfl, Or.inl rfl⟩

@[simp] theorem bumpState_twapConfig (s : SchedState) (trade : TradeExecution) :
    (bumpState s trade).twapConfig = s.twapConfig := rfl

@[simp] theorem bumpState_armed (s : SchedState) (trade : TradeExecution) :
    (bumpState s trade).twapIntervalArmed = s.twapIntervalArmed := rfl

@[simp] theorem bumpState_cur (s : SchedState) (trade : TradeExecution) :
    (bumpState s trade).currentSessionId = s.currentSessionId := rfl

@[simp] theorem bumpState_wallet (s : SchedState) (trade : TradeExecution) :
    (bumpState s trade).currentWalletAddress = s.currentWalletAddress := rfl

@[simp] theorem bumpState_tc (s : SchedState) (trade : TradeExecution) :
    (bumpState s trade).tradesCompleted = s.tradesCompleted + 1 := rfl

@[simp] theorem bumpState_hist (s : SchedState) (trade : TradeExecution) :
    (bumpState s trade).tradeHistory = s.tradeHistory ++ [trade] := rfl

@[simp] theorem bumpState_sessions (s : SchedState) (trade : TradeExecution) :
    (bumpState s trade).db.sessions
      = bumpSessions s.db.sessions s.currentSessionId (s.tradesCompleted + 1) := rfl

@[simp] theorem bumpState_next (s : SchedState) (trade : TradeExecution) :
    (bumpState s trade).db.nextSessionId = s.db.nextSessionId := rfl

@[simp] theorem bumpState_trades (s : SchedState) (trade : TradeExecution) :
    (bumpState s trade).db.trades = s.db.trades := rfl

@[simp] theorem bumpState_ledger (s : SchedState) (trade : TradeExecution) :
    (bumpState s trade).db.ledger = s.db.ledger := rfl

/-- An UPDATE keyed by the id of an active row leaves every non-active row
of a duplicate-free session table untouched. -/
theorem frameUpd {sessions : List SessionRow} {sid : ℕ} {r : SessionRow}
    (hnd : (sessions.map SessionRow.id).Nodup) (hr : r ∈ sessions)
    (hnotact : r.status ≠ SessionStatus.active)
    (hact : ∃ ra, ra ∈ sessions ∧ ra.id = sid ∧ ra.status = SessionStatus.active)
    (u : SessionUpdate) :
    r ∈ updateTWAPSession sessions sid u := by
  obtain ⟨ra, hra, hraid, hraact⟩ := hact
  apply updateTWAPSession_mem_other hr
  intro hrid
  have heq : ra = r := List.inj_on_of_nodup_map hnd hra hr (by rw [hraid, hrid])
  rw [heq] at hraact
  exact hnotact hraact

/-- State-shape and invariant facts for `finishTrade` at a state whose
config is set, as at both of its call sites inside `executeTrade`. -/
theorem finishTrade_facts (s : SchedState) (now : ℕ) (trade : TradeExecution) (cfg : TWAPConfig)
    (hcfg : s.twapConfig = some cfg) (hc : InvCore s) :
    InvCore (finishTrade s now trade) ∧
    (finishTrade s now trade).tradesCompleted = s.tradesCompleted + 1 ∧
    (finishTrade s now trade).tradeHistory = s.tradeHistory ++ [trade] ∧
    (finishTrade s now trade).db.trades = s.db.trades ∧
    (finishTrade s now trade).db.ledger = s.db.ledger ∧
    (finishTrade s now trade).db.nextSessionId = s.db.nextSessionId ∧
    ((cfg.numTrades ≤ s.tradesCompleted + 1 ∧
        (finishTrade s now trade).twapConfig = none ∧
        (finishTrade s now trade).twapIntervalArmed = false ∧
        (finishTrade s now trade).currentSessionId = none ∧
        (∀ sid, s.currentSessionId = some sid →
          (finishTrade s now trade).db.sessions = updateTWAPSession
            (bumpSessions s.db.sessions s.currentSessionId (s.tradesCompleted + 1)) sid
            ⟨some (s.tradesCompleted + 1), some SessionStatus.completed, some now⟩)) ∨
     (s.tradesCompleted + 1 < cfg.numTrades ∧
        (finishTrade s now trade).twapConfig = some cfg ∧
        (finishTrade s now trade).twapIntervalArmed = s.twapIntervalArmed ∧
        (finishTrade s now trade).currentSessionId = s.currentSessionId ∧
        (finishTrade s now trade).currentWalletAddress = s.currentWalletAddress ∧
        (finishTrade s now trade).db.sessions
          = bumpSessions s.db.sessions s.currentSessionId (s.tradesCompleted + 1))) ∧
    (∀ r ∈ s.db.sessions, r.status ≠ SessionStatus.active →
      r ∈ (finishTrade s now trade).db.sessions) := by
  have hb : ∀ r' ∈ (bumpState s trade).db.sessions,
      r'.tradesCompleted ≤ r'.totalTrades := by
    rw [bumpState_sessions]
    intro r' hr'
    obtain ⟨r, hr, -, htot, -, hd⟩ := bumpSessions_mem hr'
    rcases hd with htc | ⟨hcur, htc⟩
    · rw [htc, htot]; exact hc.bounds r hr
    · rw [htc, htot, hc.curTotal r.id cfg r hcur hcfg hr rfl]
      exact hc.cfgLt cfg hcfg
  have hactive2 : ∀ r' ∈ (bumpState s trade).db.sessions,
      r'.status = SessionStatus.active → (bumpState s trade).currentSessionId = some r'.id := by
    rw [bumpState_sessions, bumpState_cur]
    intro r' hr' hact
    obtain ⟨r, hr, hid, -, hst, -⟩ := bumpSessions_mem hr'
    rw [hid]
    exact hc.activeIsCur r hr (hst ▸ hact)
  have hts2 : ∀ sid, (bumpState s trade).currentSessionId = some sid →
      ∀ r' ∈ (bumpState s trade).db.sessions,
        r'.id = sid → (bumpState s trade).tradesCompleted ≤ r'.totalTrades := by
    rw [bumpState_sessions, bumpState_cur, bumpState_tc]
    intro sid hsid r' hr' hid'
    obtain ⟨r, hr, hid, htot, -, -⟩ := bumpSessions_mem hr'
    rw [htot, hc.curTotal sid cfg r hsid hcfg hr (hid ▸ hid')]
    exact hc.cfgLt cfg hcfg
  have hcurA : ∀ sid, (bumpState s trade).currentSessionId = some sid →
      ∃ r', r' ∈ (bumpState s trade).db.sessions ∧ r'.id = sid ∧
        r'.status = SessionStatus.active := by
    rw [bumpState_sessions, bumpState_cur]
    intro sid hsid
    obtain ⟨r, hr, hid, hact⟩ := hc.curActive sid hsid
    rw [show bumpSessions s.db.sessions s.currentSessionId (s.tradesCompleted + 1)
        = updateTWAPSession s.db.sessions sid ⟨some (s.tradesCompleted + 1), none, none⟩ by
      rw [hsid]; rfl]
    refine ⟨if (r.id == sid) then
        applySessionUpdate ⟨some (s.tradesCompleted + 1), none, none⟩ r else r,
      updateTWAPSession_mem_of_mem hr, ?_, ?_⟩ <;>
      split <;> simp [applySessionUpdate, hid, hact]
  have hidsLt2 : ∀ r' ∈ (bumpState s trade).db.sessions,
      r'.id < (bumpState s trade).db.nextSessionId := by
    rw [bumpState_sessions, bumpState_next]
    intro r' hr'
    obtain ⟨r, hr, hid, -, -, -⟩ := bumpSessions_mem hr'
    rw [hid]; exact hc.idsLt r hr
  have htot2 : ∀ sid cfg' r', (bumpState s trade).currentSessionId = some sid →
      (bumpState s trade).twapConfig = some cfg' →
      r' ∈ (bumpState s trade).db.sessions →
      r'.id = sid → r'.totalTrades = cfg'.numTrades := by
    rw [bumpState_sessions, bumpState_cur, bumpState_twapConfig]
    intro sid cfg' r' hsid hcfg' hr' hid'
    obtain ⟨r, hr, hid, htot, -, -⟩ := bumpSessions_mem hr'
    rw [htot]
    exact hc.curTotal sid cfg' r hsid hcfg' hr (hid ▸ hid')
  have hnodup2 : ((bumpState s trade).db.sessions.map SessionRow.id).Nodup := by
    rw [bumpState_sessions, bumpSessions_ids]; exact hc.nodup
  have hframe1 : ∀ r ∈ s.db.sessions, r.status ≠ SessionStatus.active →
      r ∈ (bumpState s trade).db.sessions := by
    rw [bumpState_sessions]
    intro r hr hna
    cases hcur : s.currentSessionId with
    | none => exact hr
    | some sid =>
      show r ∈ updateTWAPSession s.db.sessions sid ⟨some (s.tradesCompleted + 1), none, none⟩
      exact frameUpd hc.nodup hr hna (hc.curActive sid hcur) _
  have hfin : finishTrade s now trade =
      (if cfg.numTrades ≤ s.tradesCompleted + 1 then (stopTWAP (bumpState s trade) now).1
       else if s.twapIntervalArmed then
         { bumpState s trade with nextTradeAt := some (now + cfg.intervalMs) }
       else bumpState s trade) := by
    unfold finishTrade
    rw [hcfg]
  by_cases hdone : cfg.numTrades ≤ s.tradesCompleted + 1
  · rw [hfin, if_pos hdone]
    obtain ⟨istop, -⟩ := invCore_stop (bumpState s trade) now hnodup2 hidsLt2 hb hactive2 hts2
    obtain ⟨hcfg', harm', hcur', -, -, htc', hhist', hnext', htr', hled'⟩ :=
      stopTWAP_state (bumpState s trade) now
    refine ⟨istop, ?_, ?_, ?_, ?_, ?_, Or.inl ⟨hdone, hcfg', harm', hcur', ?_⟩, ?_⟩
    · rw [htc', bumpState_tc]
    · rw [hhist', bumpState_hist]
    · rw [htr', bumpState_trades]
    · rw [hled', bumpState_ledger]
    · rw [hnext', bumpState_next]
    · intro sid hsid
      rw [stopTWAP_sessions_some
        (show (bumpState s trade).currentSessionId = some sid from hsid)]
      simp only [bumpState_sessions, bumpState_tc, bumpState_twapConfig, hcfg,
        Option.map_some', Option.getD_some, if_pos hdone]
    · intro r hr hna
      cases hcur : s.currentSessionId with
      | none =>
        rw [stopTWAP_sessions_none (show (bumpState s trade).currentSessionId = none from hcur)]
        exact hframe1 r hr hna
      | some sid =>
        rw [stopTWAP_sessions_some
          (show (bumpState s trade).currentSessionId = some sid from hcur)]
        exact frameUpd hnodup2 (hframe1 r hr hna) hna (hcurA sid hcur) _
  · rw [hfin, if_neg hdone]
    have hlt : s.tradesCompleted + 1 < cfg.numTrades := Nat.lt_of_not_le hdone
    have icore : InvCore (bumpState s trade) := by
      constructor
      · exact hnodup2
      · exact hidsLt2
      · exact hb
      · exact hcurA
      · rw [bumpState_cur, bumpState_twapConfig]; exact hc.curCfg
      · rw [bumpState_twapConfig, bumpState_tc]
        intro cfg' hcfg'
        have heq : cfg' = cfg := (Option.some.inj (hcfg.symm.trans hcfg')).symm
        subst heq
        exact hlt
      · exact htot2
      · exact hactive2
    have icore2 : InvCore { bumpState s trade with nextTradeAt := some (now + cfg.intervalMs) } :=
      @invCore_of_eq (bumpState s trade)
        { bumpState s trade with nextTradeAt := some (now + cfg.intervalMs) }
        rfl rfl rfl rfl rfl icore
    split
    · exact ⟨icore2, rfl, rfl, rfl, rfl, rfl, Or.inr ⟨hlt, hcfg, rfl, rfl, rfl, rfl⟩, hframe1⟩
    · exact ⟨icore, rfl, rfl, rfl, rfl, rfl, Or.inr ⟨hlt, hcfg, rfl, rfl, rfl, rfl⟩, hframe1⟩

theorem insertTrade_mem (trades : List TradeRow) (t : TradeExecution) (sid : Option ℕ)
    (wal : Option String) :
    ∃ row, row ∈ insertTrade trades t sid wal ∧ row.id = t.id := by
  unfold insertTrade
  cases hfind : trades.find? (fun r => r.id == t.id) with
  | none =>
    dsimp only
    exact ⟨⟨t.id, t.timestamp, t.amountIn, t.amountOut,
      (if t.txHash == "" then none else some t.txHash), t.status, t.error, sid, wal⟩,
      List.mem_append_right _ (List.mem_singleton.mpr rfl), rfl⟩
  | some r0 =>
    dsimp only
    have hr0 : r0 ∈ trades := List.mem_of_find?_eq_some hfind
    have hid := List.find?_some hfind
    have hid2 : (r0.id == t.id) = true := hid
    refine ⟨_, List.mem_map.mpr ⟨r0, hr0, rfl⟩, ?_⟩
    rw [if_pos hid2]
    simpa using hid2

theorem updateTradeStatus_insert_mem (trades : List TradeRow) (t : TradeExecution)
    (sid : Option ℕ) (wal : Option String) (st : TradeStatus) (txh : Option String)
    (aOut : Option ℚ) (err : Option String) :
    ∃ row, row ∈ updateTradeStatus (insertTrade trades t sid wal) t.id st txh aOut err ∧
      row.id = t.id ∧ row.status = st ∧ row.error = err := by
  obtain ⟨row, hmem, hid⟩ := insertTrade_mem trades t sid wal
  unfold updateTradeStatus
  refine ⟨_, List.mem_map.mpr ⟨row, hmem, rfl⟩, ?_⟩
  rw [if_pos (by simpa using hid)]
  exact ⟨hid, rfl, rfl⟩

theorem executeTrade_of_none {s : SchedState} {now : ℕ} {o : SliceOutcome}
    (h : s.twapConfig = none) : executeTrade s now o = s := by
  unfold executeTrade
  rw [h]

/-- State-shape and invariant facts for `executeTrade` at a state whose
config is set. -/
theorem executeTrade_facts (s : SchedState) (now : ℕ) (o : SliceOutcome) (cfg : TWAPConfig)
    (hcfg : s.twapConfig = some cfg) (hc : InvCore s) :
    InvCore (executeTrade s now o) ∧
    (executeTrade s now o).tradesCompleted = s.tradesCompleted + 1 ∧
    (∃ t : TradeExecution, (executeTrade s now o).tradeHistory = s.tradeHistory ++ [t] ∧
       t.amountIn = cfg.totalAmount / (cfg.numTrades : ℚ) ∧ t.timestamp = now ∧
       (∀ aOut hx, o = SliceOutcome.success aOut hx →
          t.status = TradeStatus.success ∧ t.txHash = hx ∧ t.amountOut = aOut ∧ t.error = none) ∧
       (∀ msg, o = SliceOutcome.failure msg →
          t.status = TradeStatus.failed ∧ t.error = some msg)) ∧
    (∀ msg, o = SliceOutcome.failure msg →
       ∃ row, row ∈ (executeTrade s now o).db.trades ∧
         row.id = "trade-" ++ toString now ++ "-" ++ toString (s.tradesCompleted + 1) ∧
         row.status = TradeStatus.failed ∧ row.error = some msg) ∧
    (executeTrade s now o).db.nextSessionId = s.db.nextSessionId ∧
    ((cfg.numTrades ≤ s.tradesCompleted + 1 ∧ (executeTrade s now o).twapConfig = none ∧
        (executeTrade s now o).twapIntervalArmed = false ∧
        (executeTrade s now o).currentSessionId = none ∧
        (∀ sid, s.currentSessionId = some sid →
          (executeTrade s now o).db.sessions = updateTWAPSession
            (bumpSessions s.db.sessions s.currentSessionId (s.tradesCompleted + 1)) sid
            ⟨some (s.tradesCompleted + 1), some SessionStatus.completed, some now⟩)) ∨
     (s.tradesCompleted + 1 < cfg.numTrades ∧ (executeTrade s now o).twapConfig = some cfg ∧
        (executeTrade s now o).twapIntervalArmed = s.twapIntervalArmed ∧
        (executeTrade s now o).currentSessionId = s.currentSessionId ∧
        (executeTrade s now o).currentWalletAddress = s.currentWalletAddress ∧
        (executeTrade s now o).db.sessions
          = bumpSessions s.db.sessions s.currentSessionId (s.tradesCompleted + 1))) ∧
    (∀ r ∈ s.db.sessions, r.status ≠ SessionStatus.active →
      r ∈ (executeTrade s now o).db.sessions) := by
  cases o with
  | success aOut hx =>
    obtain ⟨sE, hsessE, hnextE, hcfgE, harmE, hcurE, hwalE, htcE, hhistE, hexec⟩ :
        ∃ sE : SchedState, sE.db.sessions = s.db.sessions ∧
          sE.db.nextSessionId = s.db.nextSessionId ∧
          sE.twapConfig = s.twapConfig ∧ sE.twapIntervalArmed = s.twapIntervalArmed ∧
          sE.currentSessionId = s.currentSessionId ∧
          sE.currentWalletAddress = s.currentWalletAddress ∧
          sE.tradesCompleted = s.tradesCompleted ∧ sE.tradeHistory = s.tradeHistory ∧
          executeTrade s now (SliceOutcome.success aOut hx) = finishTrade sE now
            ⟨"trade-" ++ toString now ++ "-" ++ toString (s.tradesCompleted + 1), now,
              cfg.totalAmount / (cfg.numTrades : ℚ), aOut, hx, TradeStatus.success, none⟩ := by
      refine ⟨{ s with db :=
        (match s.currentWalletAddress with
         | some w =>
           { s.db with
             trades := updateTradeStatus
               (insertTrade s.db.trades
                 ⟨"trade-" ++ toString now ++ "-" ++ toString (s.tradesCompleted + 1), now,
                   cfg.totalAmount / (cfg.numTrades : ℚ), 0, "", TradeStatus.pending, none⟩
                 s.currentSessionId s.currentWalletAddress)
               ("trade-" ++ toString now ++ "-" ++ toString (s.tradesCompleted + 1))
               TradeStatus.success (some hx) (some aOut) none,
             ledger := (recordTrade s.db.ledger w (tokenName cfg.tokenIn)
               (cfg.totalAmount / (cfg.numTrades : ℚ)) (tokenName cfg.tokenOut) aOut) }
         | none =>
           { s.db with
             trades := updateTradeStatus
               (insertTrade s.db.trades
                 ⟨"trade-" ++ toString now ++ "-" ++ toString (s.tradesCompleted + 1), now,
                   cfg.totalAmount / (cfg.numTrades : ℚ), 0, "", TradeStatus.pending, none⟩
                 s.currentSessionId s.currentWalletAddress)
               ("trade-" ++ toString now ++ "-" ++ toString (s.tradesCompleted + 1))
               TradeStatus.success (some hx) (some aOut) none }) },
        ?_, ?_, rfl, rfl, rfl, rfl, rfl, rfl, ?_⟩
      · cases s.currentWalletAddress <;> rfl
      · cases s.currentWalletAddress <;> rfl
      · unfold executeTrade
        rw [hcfg]
    rw [hexec]
    obtain ⟨hic, htc, hh, -, -, hn, hbr, hfr⟩ := finishTrade_facts sE now _ cfg
      (hcfgE.trans hcfg) (invCore_of_eq hsessE hnextE hcurE hcfgE htcE hc)
    refine ⟨hic, by rw [htc, htcE], ⟨_, by rw [hh, hhistE], rfl, rfl, ?_, ?_⟩, ?_,
      by rw [hn, hnextE], ?_, ?_⟩
    · intro aOut' hx' hEq
      cases hEq
      exact ⟨rfl, rfl, rfl, rfl⟩
    · intro msg hEq
      cases hEq
    · intro msg hEq
      cases hEq
    · rw [htcE] at hbr
      rcases hbr with ⟨h1, h2, h3, h4, h6⟩ | ⟨h1, h2, h3, h4, h5, h6⟩
      · refine Or.inl ⟨h1, h2, h3, h4, ?_⟩
        intro sid hsid
        rw [h6 sid (by rw [hcurE]; exact hsid), hsessE, hcurE]
      · refine Or.inr ⟨h1, h2, by rw [h3, harmE], by rw [h4, hcurE], by rw [h5, hwalE], ?_⟩
        rw [h6, hsessE, hcurE]
    · intro r hr hna
      exact hfr r (by rw [hsessE]; exact hr) hna
  | failure msg =>
    obtain ⟨sE, hsessE, hnextE, hcfgE, harmE, hcurE, hwalE, htcE, hhistE, htrE, hexec⟩ :
        ∃ sE : SchedState, sE.db.sessions = s.db.sessions ∧
          sE.db.nextSessionId = s.db.nextSessionId ∧
          sE.twapConfig = s.twapConfig ∧ sE.twapIntervalArmed = s.twapIntervalArmed ∧
          sE.currentSessionId = s.currentSessionId ∧
          sE.currentWalletAddress = s.currentWalletAddress ∧
          sE.tradesCompleted = s.tradesCompleted ∧ sE.tradeHistory = s.tradeHistory ∧
          sE.db.trades = updateTradeStatus
            (insertTrade s.db.trades
              ⟨"trade-" ++ toString now ++ "-" ++ toString (s.tradesCompleted + 1), now,
                cfg.totalAmount / (cfg.numTrades : ℚ), 0, "", TradeStatus.pending, none⟩
              s.currentSessionId s.currentWalletAddress)
            ("trade-" ++ toString now ++ "-" ++ toString (s.tradesCompleted + 1))
            TradeStatus.failed none none (some msg) ∧
          executeTrade s now (SliceOutcome.failure msg) = finishTrade sE now
            ⟨"trade-" ++ toString now ++ "-" ++ toString (s.tradesCompleted + 1), now,
              cfg.totalAmount / (cfg.numTrades : ℚ), 0, "", TradeStatus.failed, some msg⟩ := by
      refine ⟨{ s with db :=
        { s.db with
          trades := updateTradeStatus
            (insertTrade s.db.trades
              ⟨"trade-" ++ toString now ++ "-" ++ toString (s.tradesCompleted + 1), now,
                cfg.totalAmount / (cfg.numTrades : ℚ), 0, "", TradeStatus.pending, none⟩
              s.currentSessionId s.currentWalletAddress)
            ("trade-" ++ toString now ++ "-" ++ toString (s.tradesCompleted + 1))
            TradeStatus.failed none none (some msg) } },
        rfl, rfl, rfl, rfl, rfl, rfl, rfl, rfl, rfl, ?_⟩
      unfold executeTrade
      rw [hcfg]
    rw [hexec]
    obtain ⟨hic, htc, hh, htr, -, hn, hbr, hfr⟩ := finishTrade_facts sE now _ cfg
      (hcfgE.trans hcfg) (invCore_of_eq hsessE hnextE hcurE hcfgE htcE hc)
    refine ⟨hic, by rw [htc, htcE], ⟨_, by rw [hh, hhistE], rfl, rfl, ?_, ?_⟩, ?_,
      by rw [hn, hnextE], ?_, ?_⟩
    · intro aOut' hx' hEq
      cases hEq
    · intro msg' hEq
      cases hEq
      exact ⟨rfl, rfl⟩
    · intro msg' hEq
      cases hEq
      rw [htr, htrE]
      obtain ⟨row, hrow, hid, hst, herr⟩ := updateTradeStatus_insert_mem s.db.trades
        ⟨"trade-" ++ toString now ++ "-" ++ toString (s.tradesCompleted + 1), now,
          cfg.totalAmount / (cfg.numTrades : ℚ), 0, "", TradeStatus.pending, none⟩
        s.currentSessionId s.currentWalletAddress TradeStatus.failed none none (some msg)
      exact ⟨row, hrow, hid, hst, herr⟩
    · rw [htcE] at hbr
      rcases hbr with ⟨h1, h2, h3, h4, h6⟩ | ⟨h1, h2, h3, h4, h5, h6⟩
      · refine Or.inl ⟨h1, h2, h3, h4, ?_⟩
        intro sid hsid
        rw [h6 sid (by rw [hcurE]; exact hsid), hsessE, hcurE]
      · refine Or.inr ⟨h1, h2, by rw [h3, harmE], by rw [h4, hcurE], by rw [h5, hwalE], ?_⟩
        rw [h6, hsessE, hcurE]
    · intro r hr hna
      exact hfr r (by rw [hsessE]; exact hr) hna

/-! ## startTWAP, restart and the step invariant -/

theorem startTWAP_ok_facts (s : SchedState) (now : ℕ) (cfg : TWAPConfig)
    (wallet : Option String) (o : SliceOutcome) (s' : SchedState) (st : TWAPStatus)
    (hInv : Inv s) (hok : startTWAP s now cfg wallet o = Except.ok (s', st)) :
    Inv s' ∧ st.tradesCompleted = 1 ∧
    s'.twapIntervalArmed = decide (1 < cfg.numTrades) ∧
    (∃ t : TradeExecution, s'.tradeHistory = s.tradeHistory ++ [t] ∧
       t.amountIn = cfg.totalAmount / (cfg.numTrades : ℚ) ∧
       (∀ aOut hx, o = SliceOutcome.success aOut hx → t.status = TradeStatus.success) ∧
       (∀ msg, o = SliceOutcome.failure msg →
          t.status = TradeStatus.failed ∧ t.error = some msg)) ∧
    (∀ r ∈ s.db.sessions, r.status ≠ SessionStatus.active → r ∈ s'.db.sessions) ∧
    (1 < cfg.numTrades →
      s'.twapConfig = some cfg ∧ s'.currentSessionId = some s.db.nextSessionId ∧
      s'.tradesCompleted = 1 ∧
      s'.db.sessions = bumpSessions (s.db.sessions ++
        [⟨s.db.nextSessionId, cfg, now, none, 0, cfg.numTrades, SessionStatus.active, wallet⟩])
        (some s.db.nextSessionId) 1) := by
  unfold startTWAP at hok
  split at hok
  · exact absurd hok (by simp)
  split at hok
  · exact absurd hok (by simp)
  split at hok
  · exact absurd hok (by simp)
  split at hok
  · exact absurd hok (by simp)
  split at hok
  · exact absurd hok (by simp)
  rename_i harm htot hnum hint hbal
  have harm2 : s.twapIntervalArmed = false := by
    cases harmv : s.twapIntervalArmed
    · rfl
    · exact absurd harmv harm
  have hnum0 : 0 < cfg.numTrades := Nat.pos_of_ne_zero hnum
  have hcfgnone : s.twapConfig = none := by
    cases hcv : s.twapConfig with
    | none => rfl
    | some c =>
      have := hInv.2 (by rw [hcv]; rfl)
      rw [harm2] at this
      exact absurd this (by simp)
  have hcurnone : s.currentSessionId = none := by
    cases hcv : s.currentSessionId with
    | none => rfl
    | some c =>
      have := hInv.1.curCfg (by rw [hcv]; rfl)
      rw [hcfgnone] at this
      exact absurd this (by simp)
  have hnoactive : ∀ r ∈ s.db.sessions, r.status ≠ SessionStatus.active := by
    intro r hr hact
    have := hInv.1.activeIsCur r hr hact
    rw [hcurnone] at this
    exact Option.noConfusion this
  dsimp only at hok
  have hpair := Except.ok.inj hok
  have hs4 : _ = s' := congrArg Prod.fst hpair
  have hst4 : _ = st := congrArg Prod.snd hpair
  have hcore2 : InvCore { s with
      twapConfig := some cfg, tradesCompleted := 0, startedAt := some now,
      nextTradeAt := some now, currentWalletAddress := wallet,
      db := { s.db with
        sessions := (s.db.sessions ++
          [⟨s.db.nextSessionId, cfg, now, none, 0, cfg.numTrades, SessionStatus.active, wallet⟩]),
        nextSessionId := s.db.nextSessionId + 1 },
      currentSessionId := some s.db.nextSessionId } := by
    constructor
    · simp only [List.map_append, List.map_cons, List.map_nil]
      rw [List.nodup_append]
      refine ⟨hInv.1.nodup, List.nodup_singleton _, ?_⟩
      intro a ha hb
      have hlt : a < s.db.nextSessionId := by
        obtain ⟨r, hr, hra⟩ := List.mem_map.mp ha
        rw [← hra]
        exact hInv.1.idsLt r hr
      have : a = s.db.nextSessionId := by simpa using hb
      omega
    · intro r hr
      rcases List.mem_append.mp hr with hl | hrgt
      · exact Nat.lt_succ_of_lt (hInv.1.idsLt r hl)
      · have : r = ⟨s.db.nextSessionId, cfg, now, none, 0, cfg.numTrades,
            SessionStatus.active, wallet⟩ := by simpa using hrgt
        rw [this]
        exact Nat.lt_succ_self _
    · intro r hr
      rcases List.mem_append.mp hr with hl | hrgt
      · exact hInv.1.bounds r hl
      · have : r = ⟨s.db.nextSessionId, cfg, now, none, 0, cfg.numTrades,
            SessionStatus.active, wallet⟩ := by simpa using hrgt
        rw [this]
        exact Nat.zero_le _
    · intro sid hsid
      have hsid2 : sid = s.db.nextSessionId := (Option.some.inj hsid).symm
      exact ⟨⟨s.db.nextSessionId, cfg, now, none, 0, cfg.numTrades,
        SessionStatus.active, wallet⟩, List.mem_append_right _ (List.mem_singleton.mpr rfl),
        hsid2 ▸ rfl, rfl⟩
    · intro hs; rfl
    · intro cfg' hcfg'
      have : cfg' = cfg := (Option.some.inj hcfg').symm
      rw [this]
      exact hnum0
    · intro sid cfg' r hsid hcfg' hr hid
      have hsid2 : sid = s.db.nextSessionId := (Option.some.inj hsid).symm
      have hcfg2 : cfg' = cfg := (Option.some.inj hcfg').symm
      rcases List.mem_append.mp hr with hl | hrgt
      · exact absurd (hid ▸ hInv.1.idsLt r hl) (by rw [hsid2]; exact Nat.lt_irrefl _)
      · have : r = ⟨s.db.nextSessionId, cfg, now, none, 0, cfg.numTrades,
            SessionStatus.active, wallet⟩ := by simpa using hrgt
        rw [this, hcfg2]
    · intro r hr hact
      rcases List.mem_append.mp hr with hl | hrgt
      · exact absurd hact (hnoactive r hl)
      · have : r = ⟨s.db.nextSessionId, cfg, now, none, 0, cfg.numTrades,
            SessionStatus.active, wallet⟩ := by simpa using hrgt
        rw [this]
  obtain ⟨hic3, htc3, ⟨t, hh3, hamt, -, hsucc, hfail⟩, -, -, hbr3, hfr3⟩ :=
    executeTrade_facts _ now o cfg rfl hcore2
  refine ⟨?_, ?_, ?_, ?_, ?_, ?_⟩
  · rw [← hs4]
    split
    · refine ⟨invCore_of_eq ?_ ?_ ?_ ?_ ?_ hic3, fun _ => rfl⟩ <;> rfl
    · rename_i h1nlt
      refine ⟨hic3, ?_⟩
      rcases hbr3 with ⟨-, hcfg0, -, -, -⟩ | ⟨hlt, -, -, -, -, -⟩
      · intro hcontra
        rw [hcfg0] at hcontra
        exact absurd hcontra (by simp)
      · exact absurd (hlt : 1 < cfg.numTrades) h1nlt
  · rw [← hst4]
    show (getTWAPStatus _).tradesCompleted = 1
    split
    · exact htc3
    · exact htc3
  · rw [← hs4]
    split
    · rename_i h1lt
      show true = decide (1 < cfg.numTrades)
      simp [h1lt]
    · rename_i h1nlt
      rcases hbr3 with ⟨-, -, harm0, -, -⟩ | ⟨hlt, -, -, -, -, -⟩
      · rw [harm0]
        simp [h1nlt]
      · exact absurd (hlt : 1 < cfg.numTrades) h1nlt
  · refine ⟨t, ?_, hamt, fun aOut hx hEq => (hsucc aOut hx hEq).1, hfail⟩
    rw [← hs4]
    split
    · exact hh3
    · exact hh3
  · intro r hr hna
    rw [← hs4]
    have hr2 := hfr3 r (List.mem_append_left _ hr) hna
    split
    · exact hr2
    · exact hr2
  · intro hgt
    rw [← hs4, if_pos hgt]
    rcases hbr3 with ⟨hle, -, -, -, -⟩ | ⟨-, h2, -, h4, -, h6⟩
    · exfalso
      have hle2 : cfg.numTrades ≤ 0 + 1 := hle
      omega
    · exact ⟨h2, h4, htc3, h6⟩

theorem restart_facts (s : SchedState) (now : ℕ) (hInv : Inv s) :
    Inv (step s (SchedOp.restart now)) ∧
    (∀ r' ∈ (step s (SchedOp.restart now)).db.sessions,
      r'.status ≠ SessionStatus.active) ∧
    (∀ r ∈ s.db.sessions, r.status = SessionStatus.active →
      ∃ r', r' ∈ (step s (SchedOp.restart now)).db.sessions ∧ r'.id = r.id ∧
        r'.status = SessionStatus.stopped ∧ r'.stoppedAt = some now) ∧
    (step s (SchedOp.restart now)).twapIntervalArmed = false := by
  have hstep : step s (SchedOp.restart now)
      = (restoreActiveSession (SchedState.init s.db) now).1 := rfl
  rw [hstep]
  unfold restoreActiveSession
  cases hga : getActiveSession (SchedState.init s.db).db.sessions with
  | none =>
    have hga2 : getActiveSession s.db.sessions = none := hga
    have hnoact := getActiveSession_none hga2
    dsimp only
    refine ⟨⟨?_, ?_⟩, ?_, ?_, rfl⟩
    · constructor
      · exact hInv.1.nodup
      · exact hInv.1.idsLt
      · exact hInv.1.bounds
      · intro sid hsid; exact absurd hsid (by simp [SchedState.init])
      · intro hsome; exact absurd hsome (by simp [SchedState.init])
      · intro cfg hcfg; exact absurd hcfg (by simp [SchedState.init])
      · intro sid cfg r hsid; exact absurd hsid (by simp [SchedState.init])
      · intro r hr hact; exact absurd hact (hnoact r hr)
    · intro hcontra; exact absurd hcontra (by simp [SchedState.init])
    · exact fun r hr => hnoact r hr
    · intro r hr hact; exact absurd hact (hnoact r hr)
  | some a =>
    have hga2 : getActiveSession s.db.sessions = some a := hga
    obtain ⟨hamem, haact⟩ := getActiveSession_active hga2
    have hacur : s.currentSessionId = some a.id := hInv.1.activeIsCur a hamem haact
    have hmem2 : ∀ r' ∈ updateTWAPSession s.db.sessions a.id
        ⟨none, some SessionStatus.stopped, some now⟩,
        (r' ∈ s.db.sessions ∧ r'.status ≠ SessionStatus.active) ∨
        (∃ r ∈ s.db.sessions, r.id = a.id ∧ r'.id = r.id ∧
          r'.tradesCompleted = r.tradesCompleted ∧ r'.totalTrades = r.totalTrades ∧
          r'.status = SessionStatus.stopped ∧ r'.stoppedAt = some now) := by
      intro r' hr'
      obtain ⟨r, hr, heq⟩ := updateTWAPSession_mem hr'
      by_cases hid : (r.id == a.id)
      · right
        rw [if_pos hid] at heq
        have hid2 : r.id = a.id := by simpa using hid
        refine ⟨r, hr, hid2, ?_, ?_, ?_, ?_, ?_⟩
        · rw [heq]; exact applySessionUpdate_id _ _
        · rw [heq]; simp [applySessionUpdate]
        · rw [heq]; exact applySessionUpdate_totalTrades _ _
        · rw [heq]; simp [applySessionUpdate]
        · rw [heq]; simp [applySessionUpdate]
      · left
        rw [if_neg hid] at heq
        rw [heq]
        refine ⟨hr, fun hact => ?_⟩
        have := hInv.1.activeIsCur r hr hact
        have h3 : r.id = a.id := Option.some.inj (this.symm.trans hacur)
        exact hid (by simp [h3])
    dsimp only
    refine ⟨⟨?_, ?_⟩, ?_, ?_, rfl⟩
    · constructor
      · rw [show ((SchedState.init s.db).db.sessions) = s.db.sessions from rfl,
          updateTWAPSession_ids]
        exact hInv.1.nodup
      · intro r' hr'
        rcases hmem2 r' hr' with ⟨hr, -⟩ | ⟨r, hr, -, hid, -, -, -, -⟩
        · exact hInv.1.idsLt r' hr
        · rw [hid]; exact hInv.1.idsLt r hr
      · intro r' hr'
        rcases hmem2 r' hr' with ⟨hr, -⟩ | ⟨r, hr, -, -, htc, htot, -, -⟩
        · exact hInv.1.bounds r' hr
        · rw [htc, htot]; exact hInv.1.bounds r hr
      · intro sid hsid; exact absurd hsid (by simp [SchedState.init])
      · intro hsome; exact absurd hsome (by simp [SchedState.init])
      · intro cfg hcfg; exact absurd hcfg (by simp [SchedState.init])
      · intro sid cfg r hsid; exact absurd hsid (by simp [SchedState.init])
      · intro r' hr' hact
        rcases hmem2 r' hr' with ⟨-, hne⟩ | ⟨-, -, -, -, -, -, hst, -⟩
        · exact absurd hact hne
        · rw [hst] at hact; exact absurd hact (by simp)
    · intro hcontra; exact absurd hcontra (by simp [SchedState.init])
    · intro r' hr'
      rcases hmem2 r' hr' with ⟨-, hne⟩ | ⟨-, -, -, -, -, -, hst, -⟩
      · exact hne
      · rw [hst]; simp
    · intro r hr hact
      have hrid : r.id = a.id :=
        Option.some.inj ((hInv.1.activeIsCur r hr hact).symm.trans hacur)
      refine ⟨applySessionUpdate ⟨none, some SessionStatus.stopped, some now⟩ r, ?_, ?_, ?_, ?_⟩
      · have hmm := @updateTWAPSession_mem_of_mem s.db.sessions a.id
          ⟨none, some SessionStatus.stopped, some now⟩ r hr
        rwa [if_pos (by simp [hrid])] at hmm
      · exact applySessionUpdate_id _ _
      · simp [applySessionUpdate]
      · simp [applySessionUpdate]

/-- Every scheduler operation preserves the reachability invariant. -/
theorem inv_step (s : SchedState) (op : SchedOp) (h : Inv s) : Inv (step s op) := by
  cases op with
  | start now cfg w o =>
    show Inv (match startTWAP s now cfg w o with
      | Except.ok (s', _) => s' | Except.error _ => s)
    cases hok : startTWAP s now cfg w o with
    | error e => exact h
    | ok p =>
      obtain ⟨s', st⟩ := p
      exact (startTWAP_ok_facts s now cfg w o s' st h hok).1
  | tick now o =>
    show Inv (executeTrade s now o)
    cases hcfg : s.twapConfig with
    | none => rw [executeTrade_of_none hcfg]; exact h
    | some cfg =>
      obtain ⟨hic, -, -, -, -, hbr, -⟩ := executeTrade_facts s now o cfg hcfg h.1
      refine ⟨hic, ?_⟩
      rcases hbr with ⟨-, hcfg0, -, -, -⟩ | ⟨-, hcfg1, harm1, -, -, -⟩
      · intro hcontra; rw [hcfg0] at hcontra; exact absurd hcontra (by simp)
      · intro _
        rw [harm1]
        exact h.2 (by rw [hcfg]; rfl)
  | stop now =>
    show Inv (stopTWAP s now).1
    have hts : ∀ sid, s.currentSessionId = some sid →
        ∀ r ∈ s.db.sessions, r.id = sid → s.tradesCompleted ≤ r.totalTrades := by
      intro sid hsid r hr hid
      have hcfg := h.1.curCfg (by rw [hsid]; rfl)
      cases hcv : s.twapConfig with
      | none => rw [hcv] at hcfg; exact absurd hcfg (by simp)
      | some cfg =>
        rw [h.1.curTotal sid cfg r hsid hcv hr hid]
        exact Nat.le_of_lt (h.1.cfgLt cfg hcv)
    obtain ⟨icore, -⟩ := invCore_stop s now h.1.nodup h.1.idsLt h.1.bounds h.1.activeIsCur hts
    refine ⟨icore, ?_⟩
    intro hcontra
    rw [(stopTWAP_state s now).1] at hcontra
    exact absurd hcontra (by simp)
  | restart now => exact (restart_facts s now h).1

theorem inv_runOps (ops : List SchedOp) : Inv (runOps ops) := by
  unfold runOps
  induction ops using List.reverseRecOn with
  | nil => exact inv_init Database.empty invCore_empty
  | append_singleton ops op ih =>
    rw [List.foldl_append, List.foldl_cons, List.foldl_nil]
    exact inv_step _ op ih

/-- A session row whose status is terminal is never mutated by any further
scheduler operation: the row itself (status included) is still present
afterwards. -/
theorem terminal_row_frozen (s : SchedState) (op : SchedOp) (r : SessionRow)
    (h : Inv s) (hr : r ∈ s.db.sessions) (hterm : r.status.isTerminal = true) :
    r ∈ (step s op).db.sessions := by
  have hnotact : r.status ≠ SessionStatus.active := by
    intro hact
    rw [hact] at hterm
    simp [SessionStatus.isTerminal] at hterm
  cases op with
  | start now cfg w o =>
    show r ∈ (match startTWAP s now cfg w o with
      | Except.ok (s', _) => s' | Except.error _ => s).db.sessions
    cases hok : startTWAP s now cfg w o with
    | error e => exact hr
    | ok p =>
      obtain ⟨s', st⟩ := p
      exact (startTWAP_ok_facts s now cfg w o s' st h hok).2.2.2.2.1 r hr hnotact
  | tick now o =>
    show r ∈ (executeTrade s now o).db.sessions
    cases hcfg : s.twapConfig with
    | none => rw [executeTrade_of_none hcfg]; exact hr
    | some cfg =>
      exact (executeTrade_facts s now o cfg hcfg h.1).2.2.2.2.2.2 r hr hnotact
  | stop now =>
    show r ∈ (stopTWAP s now).1.db.sessions
    cases hcur : s.currentSessionId with
    | none => rw [stopTWAP_sessions_none hcur]; exact hr
    | some sid =>
      rw [stopTWAP_sessions_some hcur]
      exact frameUpd h.1.nodup hr hnotact (h.1.curActive sid hcur) _
  | restart now =>
    have hstep : step s (SchedOp.restart now)
        = (restoreActiveSession (SchedState.init s.db) now).1 := rfl
    rw [hstep]
    unfold restoreActiveSession
    cases hga : getActiveSession (SchedState.init s.db).db.sessions with
    | none => exact hr
    | some a =>
      dsimp only
      obtain ⟨hamem, haact⟩ := getActiveSession_active
        (show getActiveSession s.db.sessions = some a from hga)
      exact frameUpd h.1.nodup hr hnotact ⟨a, hamem, rfl, haact⟩ _

/-! ## Lemmas tracking a run in which every slice succeeds -/

theorem map_eq_singleton_session {α : Type} {l : List SessionRow} {f : SessionRow → α} {x : α}
    (h : l.map f = [x]) : ∃ r, l = [r] ∧ f r = x := by
  cases l with
  | nil => simp at h
  | cons a t =>
    simp only [List.map_cons, List.cons.injEq] at h
    obtain ⟨hfa, ht⟩ := h
    have ht2 : t = [] := List.map_eq_nil_iff.mp ht
    exact ⟨a, by rw [ht2], hfa⟩

/-- When every guard of `startTWAP` passes, the call returns a success. -/
theorem startTWAP_ok_of_guards (s : SchedState) (now : ℕ) (cfg : TWAPConfig)
    (wallet : Option String) (o : SliceOutcome)
    (hArmed : s.twapIntervalArmed = false) (hTot : 0 < cfg.totalAmount)
    (hNum : cfg.numTrades ≠ 0) (hInt : 1000 ≤ cfg.intervalMs)
    (hBal : walletBalanceTooLow s cfg wallet = false) :
    ∃ p, startTWAP s now cfg wallet o = Except.ok p := by
  unfold startTWAP
  simp only [hArmed, hBal, Bool.false_eq_true, if_false, if_neg (not_le.mpr hTot),
    if_neg hNum, if_neg (not_lt.mpr hInt)]
  exact ⟨_, rfl⟩

/-- One successful mid-run slice: the schedule stays active, the counter,
history and the single session row's progress all advance by one. -/
theorem tick_success_mid (s : SchedState) (now : ℕ) (aOut : ℚ) (hx : String)
    (cfg : TWAPConfig) (sid k : ℕ)
    (hc : InvCore s) (hcfg : s.twapConfig = some cfg)
    (hcur : s.currentSessionId = some sid)
    (htc : s.tradesCompleted = k) (hlt : k + 1 < cfg.numTrades)
    (hsess : s.db.sessions.map (fun r => (r.tradesCompleted, r.totalTrades, r.status))
        = [(k, cfg.numTrades, SessionStatus.active)])
    (hhist : s.tradeHistory.map (fun tr => (tr.amountIn, tr.status))
        = List.replicate k (cfg.totalAmount / (cfg.numTrades : ℚ), TradeStatus.success)) :
    InvCore (executeTrade s now (SliceOutcome.success aOut hx)) ∧
    (executeTrade s now (SliceOutcome.success aOut hx)).twapConfig = some cfg ∧
    (executeTrade s now (SliceOutcome.success aOut hx)).currentSessionId = some sid ∧
    (executeTrade s now (SliceOutcome.success aOut hx)).tradesCompleted = k + 1 ∧
    ((executeTrade s now (SliceOutcome.success aOut hx)).db.sessions.map
        (fun r => (r.tradesCompleted, r.totalTrades, r.status)))
      = [(k + 1, cfg.numTrades, SessionStatus.active)] ∧
    ((executeTrade s now (SliceOutcome.success aOut hx)).tradeHistory.map
        (fun tr => (tr.amountIn, tr.status)))
      = List.replicate (k + 1) (cfg.totalAmount / (cfg.numTrades : ℚ), TradeStatus.success) := by
  obtain ⟨hic, htc2, ⟨t, hh, hamt, -, hsucc, -⟩, -, -, hbr, -⟩ :=
    executeTrade_facts s now (SliceOutcome.success aOut hx) cfg hcfg hc
  rcases hbr with ⟨hle, -, -, -, -⟩ | ⟨-, h2, -, h4, -, h6⟩
  · exfalso
    rw [htc] at hle
    omega
  obtain ⟨r, hl, hfr⟩ := map_eq_singleton_session hsess
  obtain ⟨ra, hra, hraid, -⟩ := hc.curActive sid hcur
  have hrar : ra = r := by
    rw [hl] at hra
    simpa using hra
  have hrid : r.id = sid := by rw [← hrar, hraid]
  simp only [Prod.mk.injEq] at hfr
  obtain ⟨-, htot, hstat⟩ := hfr
  refine ⟨hic, h2, by rw [h4, hcur], by rw [htc2, htc], ?_, ?_⟩
  · rw [h6, hcur, hl, htc]
    simp only [bumpSessions, updateTWAPSession, List.map_cons, List.map_nil,
      if_pos (show (r.id == sid) = true by simp [hrid])]
    simp [applySessionUpdate, htot, hstat]
  · rw [hh, List.map_append, hhist]
    have hts := (hsucc aOut hx rfl).1
    simp only [List.map_cons, List.map_nil, hamt, hts]
    rw [List.replicate_succ']

/-- The final successful slice: the schedule auto-completes and the session
row is marked completed with a full trade count. -/
theorem tick_success_last (s : SchedState) (now : ℕ) (aOut : ℚ) (hx : String)
    (cfg : TWAPConfig) (sid k : ℕ)
    (hc : InvCore s) (hcfg : s.twapConfig = some cfg)
    (hcur : s.currentSessionId = some sid)
    (htc : s.tradesCompleted = k) (heq : k + 1 = cfg.numTrades)
    (hsess : s.db.sessions.map (fun r => (r.tradesCompleted, r.totalTrades, r.status))
        = [(k, cfg.numTrades, SessionStatus.active)])
    (hhist : s.tradeHistory.map (fun tr => (tr.amountIn, tr.status))
        = List.replicate k (cfg.totalAmount / (cfg.numTrades : ℚ), TradeStatus.success)) :
    (executeTrade s now (SliceOutcome.success aOut hx)).tradesCompleted = k + 1 ∧
    (executeTrade s now (SliceOutcome.success aOut hx)).twapConfig = none ∧
    ((executeTrade s now (SliceOutcome.success aOut hx)).db.sessions.map
        (fun r => (r.tradesCompleted, r.totalTrades, r.status)))
      = [(k + 1, cfg.numTrades, SessionStatus.completed)] ∧
    ((executeTrade s now (SliceOutcome.success aOut hx)).tradeHistory.map
        (fun tr => (tr.amountIn, tr.status)))
      = List.replicate (k + 1) (cfg.totalAmount / (cfg.numTrades : ℚ), TradeStatus.success) := by
  obtain ⟨hic, htc2, ⟨t, hh, hamt, -, hsucc, -⟩, -, -, hbr, -⟩ :=
    executeTrade_facts s now (SliceOutcome.success aOut hx) cfg hcfg hc
  rcases hbr with ⟨-, h2, -, -, h6⟩ | ⟨hlt, -, -, -, -, -⟩
  swap
  · exfalso
    rw [htc] at hlt
    omega
  obtain ⟨r, hl, hfr⟩ := map_eq_singleton_session hsess
  obtain ⟨ra, hra, hraid, -⟩ := hc.curActive sid hcur
  have hrar : ra = r := by
    rw [hl] at hra
    simpa using hra
  have hrid : r.id = sid := by rw [← hrar, hraid]
  simp only [Prod.mk.injEq] at hfr
  obtain ⟨-, htot, hstat⟩ := hfr
  refine ⟨by rw [htc2, htc], h2, ?_, ?_⟩
  · rw [h6 sid hcur, hcur, hl, htc]
    simp only [bumpSessions, updateTWAPSession, List.map_cons, List.map_nil,
      if_pos (show (r.id == sid) = true by simp [hrid])]
    rw [if_pos (show ((applySessionUpdate ⟨some (k + 1), none, none⟩ r).id == sid) = true
      by simp [hrid])]
    simp [applySessionUpdate, htot, hstat]
  · rw [hh, List.map_append, hhist]
    have hts := (hsucc aOut hx rfl).1
    simp only [List.map_cons, List.map_nil, hamt, hts]
    rw [List.replicate_succ']

/-- C4: a schedule started with totalAmount 1000 and numSlices 10 (interval
3600000 ms, slippage 50 bps, any tokens, any tick times, any realized swap
outputs and hashes) in which all 10 slices succeed ends with
`tradesCompleted = 10`, its session row marked `completed` with a full trade
count, and exactly 10 trade records each with `amountIn = 1000 / 10 = 100`
(the equal partition of the total). -/
theorem round_trip_ten_successful_slices
    (t0 t1 t2 t3 t4 t5 t6 t7 t8 t9 : ℕ) (a0 a1 a2 a3 a4 a5 a6 a7 a8 a9 : ℚ)
    (x0 x1 x2 x3 x4 x5 x6 x7 x8 x9 : String) (tokIn tokOut : String) (sFin : SchedState)
    (hsFin : sFin = runOps
      [SchedOp.start t0 ⟨1000, 10, 3600000, 50, tokIn, tokOut⟩ none (SliceOutcome.success a0 x0),
       SchedOp.tick t1 (SliceOutcome.success a1 x1), SchedOp.tick t2 (SliceOutcome.success a2 x2),
       SchedOp.tick t3 (SliceOutcome.success a3 x3), SchedOp.tick t4 (SliceOutcome.success a4 x4),
       SchedOp.tick t5 (SliceOutcome.success a5 x5), SchedOp.tick t6 (SliceOutcome.success a6 x6),
       SchedOp.tick t7 (SliceOutcome.success a7 x7), SchedOp.tick t8 (SliceOutcome.success a8 x8),
       SchedOp.tick t9 (SliceOutcome.success a9 x9)]) :
    sFin.tradesCompleted = 10 ∧
    sFin.db.sessions.map (fun r => (r.tradesCompleted, r.totalTrades, r.status))
      = [(10, 10, SessionStatus.completed)] ∧
    sFin.tradeHistory.length = 10 ∧
    sFin.tradeHistory.map (fun tr => (tr.amountIn, tr.status))
      = List.replicate 10 ((100 : ℚ), TradeStatus.success) := by
  obtain ⟨p, hok⟩ := startTWAP_ok_of_guards (SchedState.init Database.empty) t0
    ⟨1000, 10, 3600000, 50, tokIn, tokOut⟩ none (SliceOutcome.success a0 x0)
    rfl (by norm_num) (by norm_num) (by norm_num) rfl
  obtain ⟨s1, st1⟩ := p
  have hInv0 : Inv (SchedState.init Database.empty) := inv_init _ invCore_empty
  obtain ⟨hInv1, -, -, ⟨tt, hh1, hamt1, hsucc1, -⟩, -, hchar⟩ :=
    startTWAP_ok_facts _ t0 _ none _ s1 st1 hInv0 hok
  obtain ⟨hcfg1, hcur1, htc1, hsess1raw⟩ := hchar (by norm_num)
  have hcur1b : s1.currentSessionId = some 0 := hcur1
  have hsess1 : s1.db.sessions.map (fun r => (r.tradesCompleted, r.totalTrades, r.status))
      = [(1, (⟨1000, 10, 3600000, 50, tokIn, tokOut⟩ : TWAPConfig).numTrades,
          SessionStatus.active)] := by
    rw [hsess1raw]
    show ((bumpSessions ([] ++ [⟨0, _, t0, none, 0, 10, SessionStatus.active, none⟩])
      (some 0) 1).map _) = _
    simp [bumpSessions, updateTWAPSession, applySessionUpdate]
  have hhist1 : s1.tradeHistory.map (fun tr => (tr.amountIn, tr.status))
      = List.replicate 1
        ((⟨1000, 10, 3600000, 50, tokIn, tokOut⟩ : TWAPConfig).totalAmount
          / ((⟨1000, 10, 3600000, 50, tokIn, tokOut⟩ : TWAPConfig).numTrades : ℚ),
         TradeStatus.success) := by
    rw [hh1]
    show (([] ++ [tt]).map _) = _
    simp [hamt1, hsucc1 a0 x0 rfl]
  obtain ⟨hc2, hcfg2, hcur2, htc2, hsess2, hhist2⟩ :=
    tick_success_mid s1 t1 a1 x1 _ 0 1 hInv1.1 hcfg1 hcur1b htc1 (by norm_num) hsess1 hhist1
  obtain ⟨hc3, hcfg3, hcur3, htc3, hsess3, hhist3⟩ :=
    tick_success_mid _ t2 a2 x2 _ 0 2 hc2 hcfg2 hcur2 htc2 (by norm_num) hsess2 hhist2
  obtain ⟨hc4, hcfg4, hcur4, htc4, hsess4, hhist4⟩ :=
    tick_success_mid _ t3 a3 x3 _ 0 3 hc3 hcfg3 hcur3 htc3 (by norm_num) hsess3 hhist3
  obtain ⟨hc5, hcfg5, hcur5, htc5, hsess5, hhist5⟩ :=
    tick_success_mid _ t4 a4 x4 _ 0 4 hc4 hcfg4 hcur4 htc4 (by norm_num) hsess4 hhist4
  obtain ⟨hc6, hcfg6, hcur6, htc6, hsess6, hhist6⟩ :=
    tick_success_mid _ t5 a5 x5 _ 0 5 hc5 hcfg5 hcur5 htc5 (by norm_num) hsess5 hhist5
  obtain ⟨hc7, hcfg7, hcur7, htc7, hsess7, hhist7⟩ :=
    tick_success_mid _ t6 a6 x6 _ 0 6 hc6 hcfg6 hcur6 htc6 (by norm_num) hsess6 hhist6
  obtain ⟨hc8, hcfg8, hcur8, htc8, hsess8, hhist8⟩ :=
    tick_success_mid _ t7 a7 x7 _ 0 7 hc7 hcfg7 hcur7 htc7 (by norm_num) hsess7 hhist7
  obtain ⟨hc9, hcfg9, hcur9, htc9, hsess9, hhist9⟩ :=
    tick_success_mid _ t8 a8 x8 _ 0 8 hc8 hcfg8 hcur8 htc8 (by norm_num) hsess8 hhist8
  obtain ⟨htcF, -, hsessF, hhistF⟩ :=
    tick_success_last _ t9 a9 x9 _ 0 9 hc9 hcfg9 hcur9 htc9 (by norm_num) hsess9 hhist9
  have hstep0 : step (SchedState.init Database.empty)
      (SchedOp.start t0 ⟨1000, 10, 3600000, 50, tokIn, tokOut⟩ none
        (SliceOutcome.success a0 x0)) = s1 := by
    show (match startTWAP (SchedState.init Database.empty) t0
        ⟨1000, 10, 3600000, 50, tokIn, tokOut⟩ none (SliceOutcome.success a0 x0) with
      | Except.ok (s', _) => s'
      | Except.error _ => SchedState.init Database.empty) = s1
    rw [hok]
  have hrun : sFin = executeTrade (executeTrade (executeTrade (executeTrade (executeTrade
      (executeTrade (executeTrade (executeTrade (executeTrade s1
        t1 (SliceOutcome.success a1 x1)) t2 (SliceOutcome.success a2 x2))
        t3 (SliceOutcome.success a3 x3)) t4 (SliceOutcome.success a4 x4))
        t5 (SliceOutcome.success a5 x5)) t6 (SliceOutcome.success a6 x6))
        t7 (SliceOutcome.success a7 x7)) t8 (SliceOutcome.success a8 x8))
        t9 (SliceOutcome.success a9 x9) := by
    rw [hsFin]
    unfold runOps
    simp only [List.foldl_cons, List.foldl_nil]
    rw [hstep0]
    rfl
  have h100 : (⟨1000, 10, 3600000, 50, tokIn, tokOut⟩ : TWAPConfig).totalAmount
      / ((⟨1000, 10, 3600000, 50, tokIn, tokOut⟩ : TWAPConfig).numTrades : ℚ) = 100 := by
    norm_num
  rw [h100] at hhistF
  rw [hrun]
  refine ⟨htcF, hsessF, ?_, hhistF⟩
  have hlen := congrArg List.length hhistF
  simpa using hlen

/-- Witness for the round trip at tick times 0-9, swap output 7 per slice,
hashes h0-h9 and the configured token types. -/
theorem round_trip_ten_successful_slices_witness :
    (runOps c4ops).tradesCompleted = 10 ∧
    (runOps c4ops).db.sessions.map (fun r => (r.tradesCompleted, r.totalTrades, r.status))
      = [(10, 10, SessionStatus.completed)] ∧
    (runOps c4ops).tradeHistory.length = 10 ∧
    (runOps c4ops).tradeHistory.map (fun tr => (tr.amountIn, tr.status))
      = List.replicate 10 ((100 : ℚ), TradeStatus.success) :=
  round_trip_ten_successful_slices 0 1 2 3 4 5 6 7 8 9 7 7 7 7 7 7 7 7 7 7
    "h0" "h1" "h2" "h3" "h4" "h5" "h6" "h7" "h8" "h9" usdcTokenType moveTokenType
    (runOps c4ops) rfl

/-! ## Claim C3: counter bounds and terminal immutability -/

/-- C3: in every state reachable by any sequence of scheduler operations,
every persisted session row satisfies tradesCompleted ≤ totalTrades, the
in-process counter of the active schedule never exceeds its numTrades, and a
session row whose status is terminal (completed, stopped or failed) survives
every further operation unchanged, status included. -/
theorem twap_bounds_and_terminal_immutable (ops : List SchedOp) :
    (∀ r ∈ (runOps ops).db.sessions, r.tradesCompleted ≤ r.totalTrades) ∧
    (∀ cfg, (runOps ops).twapConfig = some cfg →
       (runOps ops).tradesCompleted ≤ cfg.numTrades) ∧
    (∀ op r, r ∈ (runOps ops).db.sessions → r.status.isTerminal = true →
       r ∈ (step (runOps ops) op).db.sessions) := by
  have h := inv_runOps ops
  refine ⟨h.1.bounds, ?_, ?_⟩
  · intro cfg hcfg
    exact Nat.le_of_lt (h.1.cfgLt cfg hcfg)
  · intro op r hr hterm
    exact terminal_row_frozen (runOps ops) op r h hr hterm

/-- Witness for the bounds and terminal immutability on the stopped session
row produced by `c3ops`. -/
theorem twap_bounds_and_terminal_immutable_witness :
    (c3row ∈ (runOps c3ops).db.sessions) ∧
    c3row.tradesCompleted ≤ c3row.totalTrades ∧
    c3row ∈ (step (runOps c3ops) (SchedOp.tick 5 (SliceOutcome.failure "x"))).db.sessions := by
  obtain ⟨p, hok⟩ := startTWAP_ok_of_guards (SchedState.init Database.empty) 0
    ⟨600, 3, 3600000, 50, usdcTokenType, moveTokenType⟩ none (SliceOutcome.failure "boom")
    rfl (by norm_num) (by norm_num) (by norm_num) rfl
  obtain ⟨s1, st1⟩ := p
  have hInv0 : Inv (SchedState.init Database.empty) := inv_init _ invCore_empty
  obtain ⟨-, -, -, -, -, hchar⟩ := startTWAP_ok_facts _ 0 _ none _ s1 st1 hInv0 hok
  obtain ⟨hcfg1, hcur1, htc1, hsess1⟩ := hchar (by norm_num)
  have hstep0 : step (SchedState.init Database.empty)
      (SchedOp.start 0 ⟨600, 3, 3600000, 50, usdcTokenType, moveTokenType⟩ none
        (SliceOutcome.failure "boom")) = s1 := by
    show (match startTWAP (SchedState.init Database.empty) 0
        ⟨600, 3, 3600000, 50, usdcTokenType, moveTokenType⟩ none
        (SliceOutcome.failure "boom") with
      | Except.ok (s', _) => s'
      | Except.error _ => SchedState.init Database.empty) = s1
    rw [hok]
  have hrun : runOps c3ops = (stopTWAP s1 1).1 := by
    show step (step (SchedState.init Database.empty)
      (SchedOp.start 0 ⟨600, 3, 3600000, 50, usdcTokenType, moveTokenType⟩ none
        (SliceOutcome.failure "boom"))) (SchedOp.stop 1) = (stopTWAP s1 1).1
    rw [hstep0]
    rfl
  have hcur1b : s1.currentSessionId = some 0 := hcur1
  have hsessF : (runOps c3ops).db.sessions = [c3row] := by
    rw [hrun, stopTWAP_sessions_some hcur1b, hsess1, htc1, hcfg1]
    norm_num [SchedState.init, Database.empty, bumpSessions, updateTWAPSession,
      applySessionUpdate, c3row]
  have hmem : c3row ∈ (runOps c3ops).db.sessions := by
    rw [hsessF]
    exact List.mem_singleton.mpr rfl
  obtain ⟨h1, -, h3⟩ := twap_bounds_and_terminal_immutable c3ops
  exact ⟨hmem, h1 c3row hmem,
    h3 (SchedOp.tick 5 (SliceOutcome.failure "x")) c3row hmem (by decide)⟩

/-! ## Claim C5: a failed slice is isolated -/

/-- C5: when a slice's execution throws, the error is caught inside
executeTrade: the counter is still incremented, the in-memory history gains a
failed record carrying the error text and the slice's designated amount, a
failed trade row carrying the error text is persisted, the schedule itself
(config and armed interval) is untouched, and the next slice still fires and
increments the counter again. -/
theorem failed_slice_isolated (s : SchedState) (now now' : ℕ) (msg : String)
    (o' : SliceOutcome) (cfg : TWAPConfig)
    (hInv : InvCore s) (hcfg : s.twapConfig = some cfg)
    (hlt : s.tradesCompleted + 1 < cfg.numTrades) :
    (executeTrade s now (SliceOutcome.failure msg)).tradesCompleted
        = s.tradesCompleted + 1 ∧
    (∃ t : TradeExecution,
       (executeTrade s now (SliceOutcome.failure msg)).tradeHistory
           = s.tradeHistory ++ [t] ∧
       t.status = TradeStatus.failed ∧ t.error = some msg ∧
       t.amountIn = cfg.totalAmount / (cfg.numTrades : ℚ)) ∧
    (∃ row, row ∈ (executeTrade s now (SliceOutcome.failure msg)).db.trades ∧
       row.status = TradeStatus.failed ∧ row.error = some msg) ∧
    (executeTrade s now (SliceOutcome.failure msg)).twapConfig = some cfg ∧
    (executeTrade s now (SliceOutcome.failure msg)).twapIntervalArmed
        = s.twapIntervalArmed ∧
    (executeTrade (executeTrade s now (SliceOutcome.failure msg)) now' o').tradesCompleted
        = s.tradesCompleted + 2 := by
  obtain ⟨hic, htc, ⟨t, hh, hamt, -, -, hfail⟩, hrow, -, hbr, -⟩ :=
    executeTrade_facts s now (SliceOutcome.failure msg) cfg hcfg hInv
  rcases hbr with ⟨hle, -, -, -, -⟩ | ⟨-, hcfg2, harm2, -, -, -⟩
  · exact absurd hle (by omega)
  obtain ⟨hts, hte⟩ := hfail msg rfl
  obtain ⟨row, hrmem, -, hrs, hre⟩ := hrow msg rfl
  obtain ⟨-, htc2, -, -, -, -, -⟩ :=
    executeTrade_facts (executeTrade s now (SliceOutcome.failure msg)) now' o' cfg hcfg2 hic
  refine ⟨htc, ⟨t, hh, hts, hte, hamt⟩, ⟨row, hrmem, hrs, hre⟩, hcfg2, harm2, ?_⟩
  rw [htc2, htc]

/-- Witness for the failed-slice isolation on the running schedule produced
by `c5ops`, with a quote failure at time 10 and a further slice at time 20. -/
theorem failed_slice_isolated_witness :
    (executeTrade (runOps c5ops) 10 (SliceOutcome.failure "QuoteError: no route")).tradesCompleted
        = (runOps c5ops).tradesCompleted + 1 ∧
    (∃ t : TradeExecution,
       (executeTrade (runOps c5ops) 10 (SliceOutcome.failure "QuoteError: no route")).tradeHistory
           = (runOps c5ops).tradeHistory ++ [t] ∧
       t.status = TradeStatus.failed ∧ t.error = some "QuoteError: no route" ∧
       t.amountIn = (⟨1000, 5, 3600000, 50, usdcTokenType, moveTokenType⟩
           : TWAPConfig).totalAmount
         / ((⟨1000, 5, 3600000, 50, usdcTokenType, moveTokenType⟩
           : TWAPConfig).numTrades : ℚ)) ∧
    (∃ row, row ∈ (executeTrade (runOps c5ops) 10
         (SliceOutcome.failure "QuoteError: no route")).db.trades ∧
       row.status = TradeStatus.failed ∧ row.error = some "QuoteError: no route") ∧
    (executeTrade (runOps c5ops) 10 (SliceOutcome.failure "QuoteError: no route")).twapConfig
        = some ⟨1000, 5, 3600000, 50, usdcTokenType, moveTokenType⟩ ∧
    (executeTrade (runOps c5ops) 10
        (SliceOutcome.failure "QuoteError: no route")).twapIntervalArmed
        = (runOps c5ops).twapIntervalArmed ∧
    (executeTrade (executeTrade (runOps c5ops) 10 (SliceOutcome.failure "QuoteError: no route"))
        20 (SliceOutcome.success 5 "hB")).tradesCompleted
        = (runOps c5ops).tradesCompleted + 2 :=
  failed_slice_isolated (runOps c5ops) 10 20 "QuoteError: no route"
    (SliceOutcome.success 5 "hB") ⟨1000, 5, 3600000, 50, usdcTokenType, moveTokenType⟩
    (inv_runOps c5ops).1 (by with_unfolding_all rfl) (by with_unfolding_all decide)

/-! ## Claim C6: insufficient balance at start -/

/-- C6: a start request whose wallet's available ledger balance for tokenIn is
below totalAmount (all other guards passing) fails with the
insufficient-balance error and leaves the entire scheduler state — session
table included — untouched. -/
theorem start_insufficient_balance_rejected (s : SchedState) (now : ℕ) (cfg : TWAPConfig)
    (w : String) (o : SliceOutcome)
    (hArmed : s.twapIntervalArmed = false) (hTot : 0 < cfg.totalAmount)
    (hNum : cfg.numTrades ≠ 0) (hInt : 1000 ≤ cfg.intervalMs)
    (hBal : (getWalletBalance s.db.ledger w (tokenName cfg.tokenIn)).available
      < cfg.totalAmount) :
    startTWAP s now cfg (some w) o = Except.error TwapError.insufficientBalance ∧
    step s (SchedOp.start now cfg (some w) o) = s ∧
    (step s (SchedOp.start now cfg (some w) o)).db.sessions = s.db.sessions := by
  have hb : walletBalanceTooLow s cfg (some w) = true := by
    unfold walletBalanceTooLow
    exact decide_eq_true hBal
  have h1 : startTWAP s now cfg (some w) o = Except.error TwapError.insufficientBalance := by
    unfold startTWAP
    simp only [hArmed, Bool.false_eq_true, if_false, if_neg (not_le.mpr hTot),
      if_neg hNum, if_neg (not_lt.mpr hInt)]
    rw [if_pos hb]
  have h2 : step s (SchedOp.start now cfg (some w) o) = s := by
    show (match startTWAP s now cfg (some w) o with
      | Except.ok (s', _) => s'
      | Except.error _ => s) = s
    rw [h1]
  exact ⟨h1, h2, by rw [h2]⟩

/-- Witness for the insufficient-balance rejection: wallet 0xW holds 500 USDC
and requests a 1000 USDC schedule. -/
theorem start_insufficient_balance_rejected_witness :
    startTWAP (SchedState.init c6db) 3 ⟨1000, 10, 3600000, 50, usdcTokenType, moveTokenType⟩
        (some "0xW") (SliceOutcome.success 5 "h")
      = Except.error TwapError.insufficientBalance ∧
    step (SchedState.init c6db)
        (SchedOp.start 3 ⟨1000, 10, 3600000, 50, usdcTokenType, moveTokenType⟩
          (some "0xW") (SliceOutcome.success 5 "h"))
      = SchedState.init c6db ∧
    (step (SchedState.init c6db)
        (SchedOp.start 3 ⟨1000, 10, 3600000, 50, usdcTokenType, moveTokenType⟩
          (some "0xW") (SliceOutcome.success 5 "h"))).db.sessions
      = (SchedState.init c6db).db.sessions :=
  start_insufficient_balance_rejected (SchedState.init c6db) 3
    ⟨1000, 10, 3600000, 50, usdcTokenType, moveTokenType⟩ "0xW" (SliceOutcome.success 5 "h")
    rfl (by norm_num) (by norm_num) (by norm_num) (by with_unfolding_all decide)

/-! ## Claim C7: slice 1 at start -/

/-- C7 counterexample: in the legacy scheduler variant the first slice is
fired without being awaited (twap.ts line 38), so the snapshot returned by a
successful start still reports tradesCompleted = 0 — not 1 — while the fired
slice is merely pending. -/
theorem legacy_start_snapshot_zero_counterexample :
    legacyStartTWAP LegacyState.init 0 ⟨1000, 10, 3600000, 50, usdcTokenType, moveTokenType⟩
      = Except.ok
        (⟨some ⟨1000, 10, 3600000, 50, usdcTokenType, moveTokenType⟩, true, 0, some 0,
           some 3600000, [], 1⟩,
         ⟨true, some ⟨1000, 10, 3600000, 50, usdcTokenType, moveTokenType⟩, 0, 10,
           some 3600000, some 0, none⟩) ∧
    (0 : ℕ) ≠ 1 := by
  refine ⟨?_, by decide⟩
  with_unfolding_all rfl

/-- C7 (amended, DB-backed variant): every successful start call has already
run slice 1 to completion: the returned snapshot reports tradesCompleted = 1,
the history has gained the slice-1 record with the equal-partition amount and
the outcome's status, and the recurring timer is armed exactly when
1 < numTrades. -/
theorem start_awaits_first_slice (s : SchedState) (now : ℕ) (cfg : TWAPConfig)
    (wallet : Option String) (o : SliceOutcome) (s' : SchedState) (st : TWAPStatus)
    (hInv : Inv s) (hok : startTWAP s now cfg wallet o = Except.ok (s', st)) :
    st.tradesCompleted = 1 ∧
    s'.twapIntervalArmed = decide (1 < cfg.numTrades) ∧
    ∃ t : TradeExecution, s'.tradeHistory = s.tradeHistory ++ [t] ∧
      t.amountIn = cfg.totalAmount / (cfg.numTrades : ℚ) ∧
      (∀ aOut hx, o = SliceOutcome.success aOut hx → t.status = TradeStatus.success) ∧
      (∀ msg, o = SliceOutcome.failure msg →
        t.status = TradeStatus.failed ∧ t.error = some msg) := by
  obtain ⟨-, h1, h2, ⟨t, ht1, ht2, hsu, hfa⟩, -, -⟩ :=
    startTWAP_ok_facts s now cfg wallet o s' st hInv hok
  exact ⟨h1, h2, t, ht1, ht2, hsu, hfa⟩

/-- Witness for the awaited first slice at a concrete successful start call
from the pristine state. -/
theorem start_awaits_first_slice_witness :
    (startTWAP (SchedState.init Database.empty) 0
        ⟨1000, 10, 3600000, 50, usdcTokenType, moveTokenType⟩ none
        (SliceOutcome.success 5 "h")).map
      (fun q => (q.2.tradesCompleted, q.1.twapIntervalArmed)) = Except.ok (1, true) := by
  obtain ⟨p, hok⟩ := startTWAP_ok_of_guards (SchedState.init Database.empty) 0
    ⟨1000, 10, 3600000, 50, usdcTokenType, moveTokenType⟩ none (SliceOutcome.success 5 "h")
    rfl (by norm_num) (by norm_num) (by norm_num) rfl
  obtain ⟨h1, h2, -⟩ := start_awaits_first_slice (SchedState.init Database.empty) 0
    ⟨1000, 10, 3600000, 50, usdcTokenType, moveTokenType⟩ none (SliceOutcome.success 5 "h")
    p.1 p.2 (inv_init Database.empty invCore_empty) (by rw [hok])
  rw [hok]
  simp only [Except.map, h1, h2]
  rfl

/-! ## Claim C9: restore on startup -/

/-- C9: after the startup restore runs (modelled as the restart operation on
any reachable state), no persisted session row is active, every row that was
active beforehand now exists with status stopped and stoppedAt set to the
restore time, and no timer is armed. -/
theorem restore_on_startup_stops_active (ops : List SchedOp) (now : ℕ) :
    (∀ r' ∈ (step (runOps ops) (SchedOp.restart now)).db.sessions,
       r'.status ≠ SessionStatus.active) ∧
    (∀ r ∈ (runOps ops).db.sessions, r.status = SessionStatus.active →
       ∃ r', r' ∈ (step (runOps ops) (SchedOp.restart now)).db.sessions ∧
         r'.id = r.id ∧ r'.status = SessionStatus.stopped ∧ r'.stoppedAt = some now) ∧
    (step (runOps ops) (SchedOp.restart now)).twapIntervalArmed = false := by
  obtain ⟨-, h1, h2, h3⟩ := restart_facts (runOps ops) now (inv_runOps ops)
  exact ⟨h1, h2, h3⟩

/-- Witness for the startup restore on the still-active session produced by
`c9ops`, restored at time 7. -/
theorem restore_on_startup_stops_active_witness :
    (c9row ∈ (runOps c9ops).db.sessions) ∧
    (∃ r', r' ∈ (step (runOps c9ops) (SchedOp.restart 7)).db.sessions ∧
       r'.id = c9row.id ∧ r'.status = SessionStatus.stopped ∧ r'.stoppedAt = some 7) ∧
    (step (runOps c9ops) (SchedOp.restart 7)).twapIntervalArmed = false := by
  obtain ⟨p, hok⟩ := startTWAP_ok_of_guards (SchedState.init Database.empty) 0
    ⟨900, 3, 3600000, 50, usdcTokenType, moveTokenType⟩ none (SliceOutcome.failure "down")
    rfl (by norm_num) (by norm_num) (by norm_num) rfl
  obtain ⟨s1, st1⟩ := p
  have hInv0 : Inv (SchedState.init Database.empty) := inv_init _ invCore_empty
  obtain ⟨-, -, -, -, -, hchar⟩ := startTWAP_ok_facts _ 0 _ none _ s1 st1 hInv0 hok
  obtain ⟨-, -, -, hsess1⟩ := hchar (by norm_num)
  have hrun : runOps c9ops = s1 := by
    show (match startTWAP (SchedState.init Database.empty) 0
        ⟨900, 3, 3600000, 50, usdcTokenType, moveTokenType⟩ none
        (SliceOutcome.failure "down") with
      | Except.ok (s', _) => s'
      | Except.error _ => SchedState.init Database.empty) = s1
    rw [hok]
  have hmem : c9row ∈ (runOps c9ops).db.sessions := by
    rw [hrun, hsess1]
    norm_num [SchedState.init, Database.empty, bumpSessions, updateTWAPSession,
      applySessionUpdate, c9row]
  obtain ⟨-, h2, h3⟩ := restore_on_startup_stops_active c9ops 7
  exact ⟨hmem, h2 c9row hmem (by decide), h3⟩

end Buyback
